import Mathlib

/-!
Shallow embedding of the tab-container controller of tabbed-rs
(src/bin/tabbed-rs.rs and src/lib.rs).

Window identifiers (X11 `Window`, a `u32`) are modelled as `Nat`.
Indices (`usize`) are modelled as `Nat`; signed offsets (`i32`) as `Int`
(tab counts stay far below `i32::MAX`, so wrap-around of `i as i32 + offset`
never occurs on reachable states and is not modelled).
Transport side effects (configure_window, set_input_focus, reparent_window,
change_window_attributes) go to the X server and touch no controller state;
they are omitted.  `f64` arithmetic in the renderer and the button-press
handler is modelled by exact rational arithmetic, with the division-by-zero
cases (`inf`/`NaN`) modelled explicitly where the code branches on them.
-/

namespace TabbedRs

/-- Controller state: the fields of `struct Tabbed` that carry state
(`conn`, `atoms`, `cli`, `config`, `screen`, `cairo_surface` are external
handles; of `cli` only the `close` flag is read by the controller, kept
here as `cliClose`). -/
structure TabbedState where
  winId : Nat
  winWidth : Nat
  winHeight : Nat
  children : List Nat
  childNames : List (Nat × String)
  focused : Option Nat
  isFocused : Bool
  running : Bool
  needRedraw : Bool
  cliClose : Bool
deriving DecidableEq, Repr

/-- `Tabbed::focus`: validates the index (out-of-range requests return with
no state change), sets `need_redraw` when the focus actually changes, then
records the new focus.  The raise/resize/set-input-focus calls are
server-side effects. -/
def focus (s : TabbedState) (f : Option Nat) : TabbedState :=
  match f with
  | some i =>
    if s.children.length ≤ i then s
    else { s with focused := some i,
                  needRedraw := s.needRedraw || (s.focused != some i) }
  | none => { s with focused := none,
                     needRedraw := s.needRedraw || (s.focused != none) }

/-- `i32::checked_rem_euclid`: `None` when the divisor is zero, otherwise
the Euclidean remainder (`Int.emod`, always non-negative for a positive
divisor).  The `i32::MIN.rem_euclid(-1)` overflow case cannot arise: the
divisor is a length cast, hence non-negative. -/
def checked_rem_euclid (a b : Int) : Option Int :=
  if b = 0 then none else some (a.emod b)

/-- Target index of `cycle`/`swap`:
`self.focused.and_then(|i| (i as i32 + offset).checked_rem_euclid(len as i32).map(|i| i as usize))`. -/
def cycleTarget (len : Nat) (focused : Option Nat) (offset : Int) : Option Nat :=
  focused.bind fun i =>
    (checked_rem_euclid ((i : Int) + offset) (len : Int)).map Int.toNat

/-- `Tabbed::cycle_focus_relative`. -/
def cycle_focus_relative (s : TabbedState) (offset : Int) : TabbedState :=
  focus s (cycleTarget s.children.length s.focused offset)

/-- `Tabbed::cycle_focus_down`. -/
def cycle_focus_down (s : TabbedState) : TabbedState :=
  cycle_focus_relative s (-1)

/-- `Tabbed::cycle_focus_up`. -/
def cycle_focus_up (s : TabbedState) : TabbedState :=
  cycle_focus_relative s 1

/-- `Vec::swap(a, b)`: simultaneous exchange of the entries at `a` and `b`
(the code only calls it with in-bounds indices; `List.getD` totalizes the
out-of-bounds case that would panic in Rust). -/
def listSwap (l : List Nat) (a b : Nat) : List Nat :=
  (l.set a (l.getD b 0)).set b (l.getD a 0)

/-- `Tabbed::swap_focused_relative`. -/
def swap_focused_relative (s : TabbedState) (offset : Int) : TabbedState :=
  match s.focused, cycleTarget s.children.length s.focused offset with
  | some a, some b => focus { s with children := listSwap s.children a b } (some b)
  | some _, none => s
  | none, _ => s

/-- `Iterator::position`: index of the first element satisfying the
predicate. -/
def listPosition (p : Nat → Bool) : List Nat → Option Nat
  | [] => none
  | x :: xs => if p x then some 0 else (listPosition p xs).map (· + 1)

/-- Ordering of `Option<usize>` as derived in Rust: `None` is less than
every `Some`; this is the `>=` of `self.focused >= maybe_index`. -/
def optionGe : Option Nat → Option Nat → Bool
  | _, none => true
  | none, some _ => false
  | some a, some b => b ≤ a

/-- `Tabbed::unmanage`: remove the window if tracked, apply the
close-on-empty policy, then `if self.focused >= maybe_index` (Rust `Option`
ordering, so also when `maybe_index` is `None`) cycle focus down, and mark
dirty. -/
def unmanage (s : TabbedState) (wid : Nat) : TabbedState :=
  let maybeIndex := listPosition (fun w => w == wid) s.children
  let s1 :=
    match maybeIndex with
    | some index => { s with children := s.children.eraseIdx index }
    | none => s
  let s2 := if s1.cliClose && s1.children.isEmpty then { s1 with running := false } else s1
  let s3 := if optionGe s2.focused maybeIndex then cycle_focus_down s2 else s2
  { s3 with needRedraw := true }

/-- `Tabbed::manage`: append the window, focus it, mark dirty.  The
property-change subscription and the initial `check_name` read external
state only (the name cache is keyed by the window and read back by the
renderer; its content does not affect `children`/`focused`/`running`). -/
def manage (s : TabbedState) (wid : Nat) : TabbedState :=
  let s1 := { s with children := s.children ++ [wid] }
  let s2 := focus s1 (some (s1.children.length - 1))
  { s2 with needRedraw := true }

/-- Fuel-driven binary logarithm: `natLog2F fuel n` is `⌊log₂ n⌋`
whenever `1 ≤ n ≤ fuel` (structural recursion on the fuel, so concrete
values reduce inside the kernel). -/
def natLog2F : Nat → Nat → Nat
  | 0, _ => 0
  | fuel + 1, n => if n ≤ 1 then 0 else natLog2F fuel (n / 2) + 1

/-- `⌊log₂ n⌋` for `1 ≤ n`. -/
def natLog2 (n : Nat) : Nat := natLog2F n n

/-- `⌊log₂ q⌋` for a positive rational: the binade exponent of `q`,
computed from the integer part of `q` (for `q ≥ 1`) or of `q⁻¹` (for
`q < 1`). -/
def ratLog2 (q : ℚ) : Int :=
  if 1 ≤ q then (natLog2 (⌊q⌋.toNat) : Int)
  else -((natLog2 ((⌈q⁻¹⌉.toNat) - 1) + 1 : Nat) : Int)

/-- Round to the nearest integer, ties to even (the IEEE-754 default
rounding applied to a count of ulps). -/
def roundHalfEven (x : ℚ) : Int :=
  let f := ⌊x⌋
  let r := x - (f : ℚ)
  if r < 1/2 then f
  else if 1/2 < r then f + 1
  else if f % 2 = 0 then f else f + 1

/-- Correct rounding of a positive rational to 53 significant bits: scale
by the binade into `[2^52, 2^53)`, round half to even, scale back.  This
is the value an IEEE-754 binary64 operation returns for an exact positive
result in the normal range. -/
def fl64Pos (q : ℚ) : ℚ :=
  ((roundHalfEven (q * 2 ^ (52 - ratLog2 q)) : ℚ)) * 2 ^ (ratLog2 q - 52)

/-- Rounding of an exact rational result to the nearest `f64`
(round-to-nearest, ties to even), for zero, positive and negative values.
Overflow and subnormals are not modelled: every value reached by the
embedded code (`u16` width, `i16` coordinate, list lengths below `2^53`,
and their two quotients) lies far inside the normal `f64` range, where
this model is exact. -/
def fl64 (q : ℚ) : ℚ :=
  if q = 0 then 0
  else if 0 < q then fl64Pos q
  else -fl64Pos (-q)

/-- Index computed by the button-press handler:
`(event_x as f64 / tab_width).floor() as usize` with
`tab_width = self.win_width as f64 / self.children.len() as f64`
(`len > 0` at the call site).  Every `f64` operation is modelled as
correct rounding to 53 bits: the casts of `event_x : i16` and
`win_width : u16` are exact, `len as f64` rounds (`fl64`), and both
divisions round — double rounding, so the result can differ by one from
the exact `⌊x·N / W⌋`.  `floor` is exact on an `f64`, and the `as usize`
cast saturates: negative and `NaN` results to `0`, `+inf` — the
`win_width = 0`, `x > 0` case, where `tab_width` is `0.0` (or `NaN` at
`len = 0`, unreachable behind the handler's guard) — to
`usize::MAX = 2^64 - 1` on a 64-bit target. -/
def buttonIndex (winWidth len : Nat) (x : Int) : Nat :=
  if winWidth = 0 then (if 0 < x then 2 ^ 64 - 1 else 0)
  else
    min ((⌊fl64 ((x : ℚ) / fl64 ((winWidth : ℚ) / fl64 ((len : ℚ))))⌋).toNat)
      (2 ^ 64 - 1)

/-- `Tabbed::handle_button_press`: ignore when there are no children or
`event_y > 20`, else focus the computed tab index. -/
def handle_button_press (s : TabbedState) (event_x event_y : Int) : TabbedState :=
  if s.children.isEmpty || 20 < event_y then s
  else focus s (some (buttonIndex s.winWidth s.children.length event_x))

/-- `Tabbed::handle_reparent_notify`. -/
def handle_reparent_notify (s : TabbedState) (window parent : Nat) : TabbedState :=
  if parent = s.winId then
    match listPosition (fun w => w == window) s.children with
    | some index => focus s (some index)
    | none => manage s window
  else
    unmanage s window

/-- `Tabbed::handle_destroy_notify`. -/
def handle_destroy_notify (s : TabbedState) (window : Nat) : TabbedState :=
  unmanage s window

/-- The state-mutating events of the controller that touch
`children`/`focused`: attach (manage), detach (unmanage), an explicit
focus action, cycle, swap, and button press. -/
inductive TEvent where
  | attach (wid : Nat)
  | detach (wid : Nat)
  | focusIndex (i : Nat)
  | cycle (offset : Int)
  | swap (offset : Int)
  | press (x y : Int)
deriving Repr

/-- Dispatch of one event to its handler. -/
def step (s : TabbedState) : TEvent → TabbedState
  | .attach wid => manage s wid
  | .detach wid => unmanage s wid
  | .focusIndex i => focus s (some i)
  | .cycle offset => cycle_focus_relative s offset
  | .swap offset => swap_focused_relative s offset
  | .press x y => handle_button_press s x y

/-- Processing a sequence of events. -/
def run (s : TabbedState) (events : List TEvent) : TabbedState :=
  events.foldl step s

/-- `Tabbed::new`: empty child list, no focus, running, dirty. -/
def initState (winId winWidth winHeight : Nat) (close : Bool) : TabbedState :=
  { winId := winId, winWidth := winWidth, winHeight := winHeight,
    children := [], childNames := [], focused := none, isFocused := true,
    running := true, needRedraw := true, cliClose := close }

/-- The focus invariant: `focused` is `None` or a valid index. -/
def FocusInv (s : TabbedState) : Prop :=
  ∀ i, s.focused = some i → i < s.children.length

/-- Concrete state for the C10 witness: close-on-empty enabled, no
children. -/
def c10State : TabbedState :=
  { winId := 5, winWidth := 200, winHeight := 200, children := [],
    childNames := [], focused := none, isFocused := true, running := true,
    needRedraw := false, cliClose := true }

/-- Concrete state for C3: two tracked windows, focus on index 1. -/
def c3State : TabbedState :=
  { winId := 10, winWidth := 200, winHeight := 200, children := [1, 2],
    childNames := [], focused := some 1, isFocused := true, running := true,
    needRedraw := false, cliClose := false }

/-- Concrete state for C2: three tracked windows, focus on the last
index. -/
def c2State : TabbedState :=
  { winId := 10, winWidth := 200, winHeight := 200, children := [1, 2, 3],
    childNames := [], focused := some 2, isFocused := true, running := true,
    needRedraw := false, cliClose := false }

/-- Concrete state for the C2 witness: children `[1, 2, 3]`, focus on
index 1 (scenario B of the specification). -/
def c2WitnessState : TabbedState :=
  { winId := 10, winWidth := 200, winHeight := 200, children := [1, 2, 3],
    childNames := [], focused := some 1, isFocused := true, running := true,
    needRedraw := false, cliClose := false }

/-- Concrete state for the C5 witness. -/
def c5State : TabbedState :=
  { winId := 10, winWidth := 200, winHeight := 200, children := [4, 5, 6],
    childNames := [], focused := some 1, isFocused := true, running := true,
    needRedraw := false, cliClose := false }

/-- Concrete state for the C6 witness. -/
def c6State : TabbedState :=
  { winId := 10, winWidth := 200, winHeight := 200, children := [7, 8, 9],
    childNames := [], focused := some 0, isFocused := true, running := true,
    needRedraw := false, cliClose := false }

/-! The per-event draw step of the main loop. -/

/-- Outcome of the external rendering backend for one `drawbar` call
(`cairo::Error` is opaque to the controller). -/
inductive DrawOutcome where
  | ok
  | err
deriving Repr, DecidableEq

/-- One iteration of the body of `main`'s event loop: dispatch the event,
then `if tabbed.need_redraw { tabbed.drawbar()?; tabbed.need_redraw =
false }`.  The `?` operator propagates a rendering error out of `main`,
modelled as `Except.error`. -/
def loopIteration (s : TabbedState) (e : TEvent) (draw : DrawOutcome) :
    Except Unit TabbedState :=
  let s1 := step s e
  if s1.needRedraw then
    match draw with
    | DrawOutcome.err => Except.error ()
    | DrawOutcome.ok => Except.ok { s1 with needRedraw := false }
  else Except.ok s1

/-- `while tabbed.running { ... }`: process the pending events in order,
stopping when `running` is cleared; a propagated error terminates the
whole loop (and the process), leaving later events unprocessed. -/
def runLoop (s : TabbedState) : List (TEvent × DrawOutcome) → Except Unit TabbedState
  | [] => Except.ok s
  | (e, d) :: rest =>
    if s.running = true then
      match loopIteration s e d with
      | Except.error u => Except.error u
      | Except.ok s1 => runLoop s1 rest
    else Except.ok s

/-- Concrete state for the C7 counterexample: two tabs over a 100-unit
wide container, focus on tab 0. -/
def c7State : TabbedState :=
  { winId := 10, winWidth := 100, winHeight := 200, children := [1, 2],
    childNames := [], focused := some 0, isFocused := true, running := true,
    needRedraw := false, cliClose := false }

/-- Concrete state for the C7 counterexample, double-rounding case: 14
tabs over an 18-unit wide container. -/
def c7bState : TabbedState :=
  { winId := 10, winWidth := 18, winHeight := 200,
    children := [1, 2, 3, 4, 5, 6, 7, 8, 9, 10, 11, 12, 13, 14],
    childNames := [], focused := some 0, isFocused := true, running := true,
    needRedraw := false, cliClose := false }

/-- Concrete state for the C7 counterexample, more-tabs-than-units case:
10 tabs over a 5-unit wide container. -/
def c7cState : TabbedState :=
  { winId := 10, winWidth := 5, winHeight := 200,
    children := [1, 2, 3, 4, 5, 6, 7, 8, 9, 10],
    childNames := [], focused := some 0, isFocused := true, running := true,
    needRedraw := false, cliClose := false }

/-- Concrete state for the C7 witness: four tabs over a 100-unit wide
container. -/
def c7WitnessState : TabbedState :=
  { winId := 10, winWidth := 100, winHeight := 200, children := [21, 22, 23, 24],
    childNames := [], focused := some 1, isFocused := true, running := true,
    needRedraw := false, cliClose := false }

/-! `color_hash` (src/lib.rs): `DefaultHasher` is SipHash-1-3 with both
keys zero.  64-bit words are `Nat` values kept below `2^64` by explicit
wrapping. -/

/-- Wrapping 64-bit arithmetic. -/
def wrap64 (x : Nat) : Nat := x % 2 ^ 64

/-- 64-bit left rotation (`u64::rotate_left`), for `x < 2^64` and
`0 < b < 64`. -/
def rotl64 (x b : Nat) : Nat := wrap64 (x <<< b) ||| (x >>> (64 - b))

/-- The four 64-bit state words of SipHash. -/
structure SipState where
  v0 : Nat
  v1 : Nat
  v2 : Nat
  v3 : Nat
deriving Repr, DecidableEq

/-- One SipHash round. -/
def sipRound (st : SipState) : SipState :=
  let v0 := wrap64 (st.v0 + st.v1)
  let v1 := rotl64 st.v1 13
  let v1 := v1 ^^^ v0
  let v0 := rotl64 v0 32
  let v2 := wrap64 (st.v2 + st.v3)
  let v3 := rotl64 st.v3 16
  let v3 := v3 ^^^ v2
  let v0 := wrap64 (v0 + v3)
  let v3 := rotl64 v3 21
  let v3 := v3 ^^^ v0
  let v2 := wrap64 (v2 + v1)
  let v1 := rotl64 v1 17
  let v1 := v1 ^^^ v2
  let v2 := rotl64 v2 32
  { v0 := v0, v1 := v1, v2 := v2, v3 := v3 }

/-- The SipHash initial state for zero keys (`DefaultHasher::new()`): the
four constants `somepseudorandomlygeneratedbytes`, unchanged by xor with
zero keys. -/
def sipInit : SipState :=
  { v0 := 0x736f6d6570736575, v1 := 0x646f72616e646f6d,
    v2 := 0x6c7967656e657261, v3 := 0x7465646279746573 }

/-- One SipHash-1-3 block compression (`c = 1` round): xor the message
word into `v3`, one round, xor it into `v0`. -/
def sipCompress (st : SipState) (b : Nat) : SipState :=
  let st := { st with v3 := st.v3 ^^^ b }
  let st := sipRound st
  { st with v0 := st.v0 ^^^ b }

/-- SipHash-1-3 finalization (`d = 3` rounds): xor `0xff` into `v2`,
three rounds, xor the four words together. -/
def sipFinalize (st : SipState) : Nat :=
  let st := { st with v2 := st.v2 ^^^ 0xff }
  let st := sipRound (sipRound (sipRound st))
  st.v0 ^^^ st.v1 ^^^ st.v2 ^^^ st.v3

/-- `DefaultHasher::new()` followed by `w.hash(&mut hasher)` and
`hasher.finish()` for a `u32` window id `w`: SipHash-1-3 with zero keys
over the four little-endian bytes of `w`.  The message is shorter than
one 8-byte block, so `finish` compresses the single padded word
`(len & 0xff) << 56 | tail` (here `4 << 56 | w`) and finalizes. -/
def defaultHasherFinish (w : Nat) : Nat :=
  sipFinalize (sipCompress sipInit ((4 <<< 56) ||| (w % 2 ^ 32)))

/-- `color_hash` (src/lib.rs): hash, truncate to `u32`
(`hasher.finish() as u32`), extract three 8-bit fields
(`(rgb >> 16) & 0xff`, `(rgb >> 8) & 0xff`, `rgb & 0xff`) and divide each
by `256.0`.  Each field is below 256, so the `f64` divisions by the power
of two are exact and modelled by `ℚ`. -/
def color_hash (w : Nat) : ℚ × ℚ × ℚ :=
  let rgb := defaultHasherFinish w % 2 ^ 32
  (((((rgb >>> 16) &&& 0xff : Nat)) : ℚ) / 256,
   ((((rgb >>> 8) &&& 0xff : Nat)) : ℚ) / 256,
   (((rgb &&& 0xff : Nat)) : ℚ) / 256)

/-- All four state words below `2^64`. -/
def SipState.Bounded (st : SipState) : Prop :=
  st.v0 < 2 ^ 64 ∧ st.v1 < 2 ^ 64 ∧ st.v2 < 2 ^ 64 ∧ st.v3 < 2 ^ 64

/-! `Tabbed::drawbar`: modelled as the list of drawing operations issued
against the cairo context (font selection and the final surface flush
carry no geometry and are omitted; `f64` literals are modelled by their
decimal values over `ℚ`). -/

/-- One drawing operation: a filled rectangle
(`set_source_rgb; rectangle; fill`), a stroked rectangle
(`rectangle; set_line_width; stroke`), or text
(`move_to; show_text; stroke`). -/
inductive DrawOp where
  | fillRect (x y w h : ℚ) (r g b : ℚ)
  | strokeRect (x y w h lineWidth : ℚ) (r g b : ℚ)
  | text (x y : ℚ) (s : String) (r g b : ℚ)
deriving DecidableEq, Repr

/-- `tab_width = self.win_width as f64 / self.children.len() as f64` with
the `f64` special values explicit: for `len = 0` the quotient is `+inf`
when `win_width > 0` and `NaN` when `win_width = 0` (`0.0/0.0`);
otherwise the exact rational quotient (`-inf` cannot arise: both operands
are non-negative). -/
inductive TabWidth where
  | fin (q : ℚ)
  | inf
  | nan
deriving DecidableEq, Repr

def tabWidthOf (winWidth len : Nat) : TabWidth :=
  if len = 0 then (if winWidth = 0 then TabWidth.nan else TabWidth.inf)
  else TabWidth.fin ((winWidth : ℚ) / (len : ℚ))

/-- Numeric value used inside the per-tab loop; the loop body only runs
when `len > 0`, where the width is finite. -/
def TabWidth.val : TabWidth → ℚ
  | TabWidth.fin q => q
  | TabWidth.inf => 0
  | TabWidth.nan => 0

/-- `self.child_names.get(&self.children[i]).map_or("", String::as_str)`. -/
def lookupName (ns : List (Nat × String)) (w : Nat) : String :=
  match ns.find? (fun p => p.1 == w) with
  | some p => p.2
  | none => ""

/-- The three operations drawn for tab `i`: dim background (brightness
`0.0` focused / `0.2` unfocused), the accent outline (height `14.0`
focused / `0.0` unfocused, channels floored at `0.25`), and the cached
name as text at `(tab_x + 5, 13.5)` in white. -/
def tabOps (s : TabbedState) (twq : ℚ) (i : Nat) : List DrawOp :=
  let wid := s.children.getD i 0
  let name := lookupName s.childNames wid
  let rgb := color_hash wid
  let bgBright : ℚ := if s.focused = some i then 0 else 2/10
  let outlineHeight : ℚ := if s.focused = some i then 14 else 0
  [DrawOp.fillRect ((i : ℚ) * twq) 0 twq 20 bgBright bgBright bgBright,
   DrawOp.strokeRect ((i : ℚ) * twq + 3) 3 (twq - 6) outlineHeight 2
     (max rgb.1 (1/4)) (max rgb.2.1 (1/4)) (max rgb.2.2 (1/4)),
   DrawOp.text ((i : ℚ) * twq + 5) (27/2) name 1 1 1]

/-- `Tabbed::drawbar`: if `tab_width.is_infinite()` paint the neutral
half-grey band across the full width, then one block of operations per
child index. -/
def drawbarOps (s : TabbedState) : List DrawOp :=
  let tw := tabWidthOf s.winWidth s.children.length
  let band : List DrawOp :=
    if tw = TabWidth.inf
    then [DrawOp.fillRect 0 0 (s.winWidth : ℚ) 20 (1/2) (1/2) (1/2)]
    else []
  band ++ (List.range s.children.length).flatMap (tabOps s tw.val)

/-- Concrete state for the C8 counterexample: no children and container
width 0. -/
def c8State : TabbedState :=
  { winId := 1, winWidth := 0, winHeight := 0, children := [],
    childNames := [], focused := none, isFocused := true, running := true,
    needRedraw := true, cliClose := false }

/-- Concrete state for the C8 witness band case: no children, width
300. -/
def c8WitnessState : TabbedState :=
  { winId := 1, winWidth := 300, winHeight := 100, children := [],
    childNames := [], focused := none, isFocused := true, running := true,
    needRedraw := true, cliClose := false }

/-- Concrete state for the C8 witness layout case: two children over
width 90. -/
def c8TabState : TabbedState :=
  { winId := 1, winWidth := 90, winHeight := 100, children := [31, 32],
    childNames := [], focused := some 0, isFocused := true, running := true,
    needRedraw := true, cliClose := false }

/-! Helper lemmas about the embedded primitives. -/

theorem listPosition_lt_length {p : Nat → Bool} :
    ∀ {l : List Nat} {i : Nat}, listPosition p l = some i → i < l.length := by
  intro l
  induction l with
  | nil => intro i h; exact absurd h (by simp [listPosition])
  | cons x xs ih =>
    intro i h
    unfold listPosition at h
    by_cases hp : p x
    · rw [if_pos hp] at h
      simp only [Option.some.injEq] at h
      simp only [List.length_cons]
      omega
    · rw [if_neg hp] at h
      cases hmap : listPosition p xs with
      | none => rw [hmap, Option.map_none'] at h; exact Option.noConfusion h
      | some j =>
        rw [hmap] at h
        rw [Option.map_some'] at h
        simp only [Option.some.injEq] at h
        have := ih hmap
        simp only [List.length_cons]
        omega

theorem emod_shift_cancel {f len : Int} (off : Int) (h0 : 0 ≤ f) (hlt : f < len) :
    ((f + off).emod len - off).emod len = f := by
  show ((f + off) % len - off) % len = f
  have h1 : ((f + off) % len - off) % len = ((f + off) - off) % len := by
    rw [Int.sub_emod, Int.emod_emod_of_dvd _ (dvd_refl len), ← Int.sub_emod]
  rw [h1, add_sub_cancel_right]
  exact Int.emod_eq_of_lt h0 hlt

theorem length_listSwap (l : List Nat) (a b : Nat) :
    (listSwap l a b).length = l.length := by
  simp [listSwap]

theorem getD_eq_getElem (l : List Nat) {i : Nat} (h : i < l.length) :
    l.getD i 0 = l[i] := by
  simp [List.getD_eq_getElem?_getD, List.getElem?_eq_getElem h]

theorem listSwap_getElem? (l : List Nat) {a b : Nat} (ha : a < l.length)
    (_hb : b < l.length) (n : Nat) :
    (listSwap l a b)[n]? =
      if n = b then some (l.getD a 0)
      else if n = a then some (l.getD b 0)
      else l[n]? := by
  unfold listSwap
  by_cases hnb : n = b
  · subst hnb
    rw [if_pos rfl, List.getElem?_set_self (by simpa using _hb)]
  · rw [if_neg hnb, List.getElem?_set_ne (fun h => hnb h.symm)]
    by_cases hna : n = a
    · subst hna
      rw [if_pos rfl, List.getElem?_set_self ha]
    · rw [if_neg hna, List.getElem?_set_ne (fun h => hna h.symm)]

theorem set_getD_self (l : List Nat) {i : Nat} (h : i < l.length) :
    l.set i (l.getD i 0) = l := by
  apply List.ext_getElem?
  intro n
  by_cases hn : n = i
  · subst hn
    rw [List.getElem?_set_self h, getD_eq_getElem l h, List.getElem?_eq_getElem h]
  · rw [List.getElem?_set_ne (fun h2 => hn h2.symm)]

theorem listSwap_self (l : List Nat) {a : Nat} (ha : a < l.length) :
    listSwap l a a = l := by
  unfold listSwap
  rw [List.set_set, set_getD_self l ha]

theorem listSwap_getD_right (l : List Nat) {a b : Nat} (ha : a < l.length)
    (hb : b < l.length) : (listSwap l a b).getD b 0 = l.getD a 0 := by
  rw [List.getD_eq_getElem?_getD, listSwap_getElem? l ha hb b, if_pos rfl]
  rfl

theorem listSwap_involutive (l : List Nat) {a b : Nat} (ha : a < l.length)
    (hb : b < l.length) : listSwap (listSwap l a b) b a = l := by
  by_cases hab : a = b
  · subst hab
    rw [listSwap_self l ha, listSwap_self l ha]
  · have hlen := length_listSwap l a b
    have ha2 : a < (listSwap l a b).length := by rw [hlen]; exact ha
    have hb2 : b < (listSwap l a b).length := by rw [hlen]; exact hb
    have gda : (listSwap l a b).getD a 0 = l.getD b 0 := by
      rw [List.getD_eq_getElem?_getD, listSwap_getElem? l ha hb a, if_neg hab,
        if_pos rfl]
      rfl
    have gdb : (listSwap l a b).getD b 0 = l.getD a 0 := listSwap_getD_right l ha hb
    apply List.ext_getElem?
    intro n
    rw [listSwap_getElem? (listSwap l a b) hb2 ha2 n]
    by_cases hna : n = a
    · subst hna
      rw [if_pos rfl, gdb, getD_eq_getElem l ha, List.getElem?_eq_getElem ha]
    · rw [if_neg hna]
      by_cases hnb : n = b
      · subst hnb
        rw [if_pos rfl, gda, getD_eq_getElem l hb, List.getElem?_eq_getElem hb]
      · rw [if_neg hnb, listSwap_getElem? l ha hb n, if_neg hnb, if_neg hna]

/-! Equations and field stability of `focus`. -/

theorem focus_none_eq (s : TabbedState) :
    focus s none = { s with focused := none,
                            needRedraw := s.needRedraw || (s.focused != none) } := rfl

theorem focus_some_eq (s : TabbedState) {i : Nat} (h : i < s.children.length) :
    focus s (some i) = { s with focused := some i,
                                needRedraw := s.needRedraw || (s.focused != some i) } := by
  simp only [focus]
  rw [if_neg (by omega)]

theorem focus_some_oob (s : TabbedState) {i : Nat} (h : s.children.length ≤ i) :
    focus s (some i) = s := by
  simp only [focus]
  rw [if_pos h]

theorem focus_children (s : TabbedState) (f : Option Nat) :
    (focus s f).children = s.children := by
  unfold focus
  cases f with
  | none => rfl
  | some i => dsimp only; split <;> rfl

theorem focus_running (s : TabbedState) (f : Option Nat) :
    (focus s f).running = s.running := by
  unfold focus
  cases f with
  | none => rfl
  | some i => dsimp only; split <;> rfl

theorem focus_winWidth (s : TabbedState) (f : Option Nat) :
    (focus s f).winWidth = s.winWidth := by
  unfold focus
  cases f with
  | none => rfl
  | some i => dsimp only; split <;> rfl

theorem focus_focused_none (s : TabbedState) : (focus s none).focused = none := by
  rw [focus_none_eq]

/-! Equations for `cycleTarget`. -/

theorem cycleTarget_none (len : Nat) (off : Int) : cycleTarget len none off = none := rfl

theorem cycleTarget_zero (f : Option Nat) (off : Int) : cycleTarget 0 f off = none := by
  cases f with
  | none => rfl
  | some i =>
    show (checked_rem_euclid ((i : Int) + off) ((0 : Nat) : Int)).map Int.toNat = none
    unfold checked_rem_euclid
    rw [if_pos (by omega)]
    rfl

theorem cycleTarget_pos {len : Nat} (hlen : 0 < len) (f : Nat) (off : Int) :
    cycleTarget len (some f) off = some (((f : Int) + off).emod (len : Int)).toNat := by
  show (checked_rem_euclid ((f : Int) + off) (len : Int)).map Int.toNat = _
  unfold checked_rem_euclid
  rw [if_neg (by omega : ¬((len : Nat) : Int) = 0)]
  rfl

theorem cycleTarget_lt {len : Nat} (hlen : 0 < len) (f : Nat) (off : Int) :
    (((f : Int) + off).emod (len : Int)).toNat < len := by
  have h1 : 0 ≤ ((f : Int) + off).emod (len : Int) :=
    Int.emod_nonneg _ (by omega)
  have h2 : ((f : Int) + off).emod (len : Int) < (len : Int) :=
    Int.emod_lt_of_pos _ (by omega)
  omega

theorem optionGe_none (x : Option Nat) : optionGe x none = true := by
  cases x <;> rfl

/-! Preservation of the focus invariant by every operation. -/

theorem focusInv_of_none {s : TabbedState} (h : s.focused = none) : FocusInv s := by
  intro i hi
  rw [h] at hi
  exact Option.noConfusion hi

theorem focusInv_mk_needRedraw {x : TabbedState} (hx : FocusInv x) (b : Bool) :
    FocusInv { x with needRedraw := b } := fun i hi => hx i hi

theorem focusInv_mk_running {x : TabbedState} (hx : FocusInv x) (b : Bool) :
    FocusInv { x with running := b } := fun i hi => hx i hi

theorem focusInv_focus {s : TabbedState} (hs : FocusInv s) (f : Option Nat) :
    FocusInv (focus s f) := by
  cases f with
  | none => exact focusInv_of_none (focus_focused_none s)
  | some j =>
    by_cases h : s.children.length ≤ j
    · rw [focus_some_oob s h]; exact hs
    · intro i hi
      rw [focus_some_eq s (by omega)] at hi
      simp only [Option.some.injEq] at hi
      rw [focus_children]
      omega

theorem focusInv_cycle (s : TabbedState) (off : Int) :
    FocusInv (cycle_focus_relative s off) := by
  unfold cycle_focus_relative
  cases hf : s.focused with
  | none =>
    rw [cycleTarget_none]
    exact focusInv_of_none (focus_focused_none s)
  | some f =>
    rcases Nat.eq_zero_or_pos s.children.length with hlen | hlen
    · rw [hlen, cycleTarget_zero]
      exact focusInv_of_none (focus_focused_none s)
    · rw [cycleTarget_pos hlen]
      intro i hi
      rw [focus_some_eq s (cycleTarget_lt hlen f off)] at hi
      simp only [Option.some.injEq] at hi
      rw [focus_children]
      have := cycleTarget_lt hlen f off
      omega

theorem focusInv_swap (s : TabbedState) (off : Int) (hs : FocusInv s) :
    FocusInv (swap_focused_relative s off) := by
  unfold swap_focused_relative
  cases hf : s.focused with
  | none =>
    rw [cycleTarget_none]
    exact hs
  | some a =>
    rcases Nat.eq_zero_or_pos s.children.length with hlen | hlen
    · exact absurd (hs a hf) (by omega)
    · rw [cycleTarget_pos hlen]
      dsimp only
      apply focusInv_focus
      intro i hi
      simp only [Option.some.injEq] at hi
      simp only [length_listSwap]
      have := hs a hf
      omega

theorem focusInv_manage (s : TabbedState) (wid : Nat) :
    FocusInv (manage s wid) := by
  unfold manage
  apply focusInv_mk_needRedraw
  intro i hi
  have hidx : (s.children ++ [wid]).length - 1 < (s.children ++ [wid]).length := by
    simp
  rw [focus_some_eq _ hidx] at hi
  simp only [Option.some.injEq] at hi
  rw [focus_children]
  dsimp only at hi ⊢
  omega

theorem focusInv_unmanage (s : TabbedState) (wid : Nat) :
    FocusInv (unmanage s wid) := by
  cases hpos : listPosition (fun w => w == wid) s.children with
  | none =>
    simp only [unmanage, hpos]
    apply focusInv_mk_needRedraw
    rw [if_pos (optionGe_none _)]
    exact focusInv_cycle _ (-1)
  | some index =>
    simp only [unmanage, hpos]
    apply focusInv_mk_needRedraw
    have hidx : index < s.children.length := listPosition_lt_length hpos
    have herase : (s.children.eraseIdx index).length = s.children.length - 1 :=
      List.length_eraseIdx_of_lt hidx
    by_cases hc : (s.cliClose && (s.children.eraseIdx index).isEmpty) = true
    · rw [if_pos hc]
      dsimp only
      by_cases hge : optionGe s.focused (some index) = true
      · rw [if_pos hge]
        exact focusInv_cycle _ (-1)
      · rw [if_neg hge]
        intro i hi
        have hfi : s.focused = some i := hi
        rw [hfi] at hge
        simp only [optionGe, decide_eq_true_eq] at hge
        show i < (s.children.eraseIdx index).length
        rw [herase]
        omega
    · rw [if_neg hc]
      dsimp only
      by_cases hge : optionGe s.focused (some index) = true
      · rw [if_pos hge]
        exact focusInv_cycle _ (-1)
      · rw [if_neg hge]
        intro i hi
        have hfi : s.focused = some i := hi
        rw [hfi] at hge
        simp only [optionGe, decide_eq_true_eq] at hge
        show i < (s.children.eraseIdx index).length
        rw [herase]
        omega

theorem focusInv_press (s : TabbedState) (x y : Int) (hs : FocusInv s) :
    FocusInv (handle_button_press s x y) := by
  unfold handle_button_press
  split
  · exact hs
  · exact focusInv_focus hs _

theorem focusInv_step (s : TabbedState) (e : TEvent) (hs : FocusInv s) :
    FocusInv (step s e) := by
  cases e with
  | attach wid => exact focusInv_manage s wid
  | detach wid => exact focusInv_unmanage s wid
  | focusIndex i => exact focusInv_focus hs _
  | cycle off => exact focusInv_cycle s off
  | swap off => exact focusInv_swap s off hs
  | press x y => exact focusInv_press s x y hs

theorem focusInv_run (events : List TEvent) :
    ∀ s : TabbedState, FocusInv s → FocusInv (run s events) := by
  induction events with
  | nil => intro s hs; exact hs
  | cons e es ih => intro s hs; exact ih (step s e) (focusInv_step s e hs)

/-! Closed-form equations for `unmanage`. -/

theorem unmanage_eq_of_none (s : TabbedState) (wid : Nat)
    (hpos : listPosition (fun w => w == wid) s.children = none) :
    unmanage s wid =
      { cycle_focus_down
          (if (s.cliClose && s.children.isEmpty) = true
           then { s with running := false } else s)
        with needRedraw := true } := by
  simp only [unmanage, hpos]
  rw [if_pos (optionGe_none _)]

theorem unmanage_eq_of_pos_focus_ge (s : TabbedState) (wid idx : Nat)
    (hpos : listPosition (fun w => w == wid) s.children = some idx)
    (hclose : (s.cliClose && (s.children.eraseIdx idx).isEmpty) = false)
    (hge : optionGe s.focused (some idx) = true) :
    unmanage s wid =
      { cycle_focus_down { s with children := s.children.eraseIdx idx }
          with needRedraw := true } := by
  have hcif : (if (s.cliClose && (s.children.eraseIdx idx).isEmpty) = true
      then { s with children := s.children.eraseIdx idx, running := false }
      else { s with children := s.children.eraseIdx idx }) =
      { s with children := s.children.eraseIdx idx } := by
    rw [if_neg (by simp [hclose])]
  simp only [unmanage, hpos]
  rw [hcif]
  dsimp only
  rw [if_pos hge]

theorem cycle_down_eq (u : TabbedState) (g : Nat) (hg : u.focused = some g)
    (hl : 0 < u.children.length) :
    cycle_focus_down u =
      focus u (some ((((g : Int) - 1).emod ((u.children.length : Int))).toNat)) := by
  unfold cycle_focus_down cycle_focus_relative
  rw [hg, cycleTarget_pos hl]
  rfl

/-- C1: for every sequence of processed events — attach via `manage`,
detach via `unmanage`, explicit focus, cycle, swap, and button press —
after each event is fully processed, `focused` is `None` or a valid index
strictly less than `children.length` (`FocusInv`). -/
theorem focused_none_or_valid (winId winWidth winHeight : Nat) (close : Bool)
    (events : List TEvent) :
    FocusInv (run (initState winId winWidth winHeight close) events) := by
  apply focusInv_run
  intro i hi
  simp [initState] at hi

/-- C10: with close-on-empty enabled and `children` already empty, any
detach notification — a reparent-notify whose new parent is not the
container, or a destroy-notify — clears `running`, even for a window that
was never tracked. -/
theorem close_on_empty_any_detach (s : TabbedState) (w p : Nat)
    (hclose : s.cliClose = true) (hempty : s.children = [])
    (hp : p ≠ s.winId) :
    (handle_reparent_notify s w p).running = false ∧
    (handle_destroy_notify s w).running = false := by
  have hpos : listPosition (fun x => x == w) s.children = none := by
    rw [hempty]; rfl
  have hun : (unmanage s w).running = false := by
    rw [unmanage_eq_of_none s w hpos]
    show (cycle_focus_down
        (if (s.cliClose && s.children.isEmpty) = true
         then { s with running := false } else s)).running = false
    rw [if_pos (by rw [hclose, hempty]; rfl)]
    unfold cycle_focus_down cycle_focus_relative
    rw [focus_running]
  constructor
  · unfold handle_reparent_notify
    rw [if_neg hp]
    exact hun
  · exact hun

/-- C10 witness: an untracked window (77) whose detach events shut the
container down. -/
theorem close_on_empty_any_detach_witness :
    (handle_reparent_notify c10State 77 0).running = false ∧
    (handle_destroy_notify c10State 77).running = false :=
  close_on_empty_any_detach c10State 77 0 rfl rfl (by decide)

/-- C3 (evaluation at the failing input): window 3 is not tracked, yet
`unmanage` moves `focused` from 1 to 0 while leaving `children` unchanged:
the Rust comparison `self.focused >= maybe_index` is always true when
`maybe_index` is `None` (`None` is the bottom of the derived `Option`
ordering), so the focus-repair `cycle(-1)` runs although nothing was
removed. -/
theorem unmanage_untracked_moves_focus :
    c3State.children = [1, 2] ∧ c3State.focused = some 1 ∧
    (unmanage c3State 3).children = [1, 2] ∧
    (unmanage c3State 3).focused = some 0 := by decide

/-- C2 counterexample: children `[1, 2, 3]` with focus on the last index
(2); detaching the focused window 3 yields `[1, 2]` with focus on index 1
— the new last index — not on index 0 as the claim's wrap-to-0 clause
states. -/
theorem unmanage_last_focused_no_wrap :
    (unmanage c2State 3).children = [1, 2] ∧
    (unmanage c2State 3).focused = some 1 ∧
    ¬((unmanage c2State 3).focused = some 0) := by decide

/-- C2 (amended): detaching the focused tab at index `f` when at least one
other tab remains (`children.length ≥ 2`) removes exactly that entry and
moves focus to `(f - 1) mod (new length)` — always a valid index of the
remaining list: the previous tab when `f ≥ 1` (so detaching the
last-indexed focused tab moves focus to the new last index, not to index
0), wrapping to the new last index when `f = 0`.  With children
`[A, B, C]` and focus on index 1, detaching `B` yields `[A, C]` with focus
on index 0. -/
theorem unmanage_focused_neighbor (s : TabbedState) (wid f : Nat)
    (hf : s.focused = some f)
    (hpos : listPosition (fun w => w == wid) s.children = some f)
    (hlen : 2 ≤ s.children.length) :
    (unmanage s wid).children = s.children.eraseIdx f ∧
    (unmanage s wid).focused =
      some ((((f : Int) - 1).emod ((s.children.length : Int) - 1)).toNat) ∧
    ((((f : Int) - 1).emod ((s.children.length : Int) - 1)).toNat
      < s.children.length - 1) ∧
    (1 ≤ f → (unmanage s wid).focused = some (f - 1)) ∧
    (f = 0 → (unmanage s wid).focused = some (s.children.length - 2)) := by
  have hidx : f < s.children.length := listPosition_lt_length hpos
  have herase : (s.children.eraseIdx f).length = s.children.length - 1 :=
    List.length_eraseIdx_of_lt hidx
  have hclose : (s.cliClose && (s.children.eraseIdx f).isEmpty) = false := by
    cases hE : s.children.eraseIdx f with
    | nil => rw [hE] at herase; simp at herase; omega
    | cons a as => simp [hE]
  have hge : optionGe s.focused (some f) = true := by
    rw [hf]; simp [optionGe]
  have hequ := unmanage_eq_of_pos_focus_ge s wid f hpos hclose hge
  have hRfoc : ({ s with children := s.children.eraseIdx f } : TabbedState).focused
      = some f := hf
  have hRlen : 0 < ({ s with children := s.children.eraseIdx f } : TabbedState).children.length := by
    show 0 < (s.children.eraseIdx f).length
    omega
  have hcd := cycle_down_eq _ f hRfoc hRlen
  have harg : (((f : Int) - 1).emod
        ((({ s with children := s.children.eraseIdx f } : TabbedState).children.length : Int))).toNat
      = (((f : Int) - 1).emod ((s.children.length : Int) - 1)).toNat := by
    have hc2 : ((({ s with children := s.children.eraseIdx f } : TabbedState).children.length : Nat) : Int)
        = (s.children.length : Int) - 1 := by
      show (((s.children.eraseIdx f).length : Nat) : Int) = (s.children.length : Int) - 1
      rw [herase]
      omega
    rw [hc2]
  rw [harg] at hcd
  have ht : (((f : Int) - 1).emod ((s.children.length : Int) - 1)).toNat
      < s.children.length - 1 := by
    have h1 : 0 ≤ ((f : Int) - 1).emod ((s.children.length : Int) - 1) :=
      Int.emod_nonneg _ (by omega)
    have h2 : ((f : Int) - 1).emod ((s.children.length : Int) - 1)
        < (s.children.length : Int) - 1 :=
      Int.emod_lt_of_pos _ (by omega)
    omega
  have htR : (((f : Int) - 1).emod ((s.children.length : Int) - 1)).toNat
      < ({ s with children := s.children.eraseIdx f } : TabbedState).children.length := by
    show _ < (s.children.eraseIdx f).length
    omega
  have hchild : (unmanage s wid).children = s.children.eraseIdx f := by
    rw [hequ]
    show (cycle_focus_down { s with children := s.children.eraseIdx f }).children
      = s.children.eraseIdx f
    rw [hcd, focus_children]
  have hfoc : (unmanage s wid).focused =
      some ((((f : Int) - 1).emod ((s.children.length : Int) - 1)).toNat) := by
    rw [hequ]
    show (cycle_focus_down { s with children := s.children.eraseIdx f }).focused = _
    rw [hcd, focus_some_eq _ htR]
  refine ⟨hchild, hfoc, ht, ?_, ?_⟩
  · intro h1
    have he : ((f : Int) - 1).emod ((s.children.length : Int) - 1) = (f : Int) - 1 :=
      Int.emod_eq_of_lt (by omega) (by omega)
    have ht4 : (((f : Int) - 1).emod ((s.children.length : Int) - 1)).toNat = f - 1 := by
      rw [he]; omega
    rw [hfoc, ht4]
  · intro h0
    subst h0
    have h2 : ((0 : Nat) : Int) - 1 = ((s.children.length : Int) - 2)
        + ((s.children.length : Int) - 1) * (-1) := by ring
    have he0 : (((0 : Nat) : Int) - 1).emod ((s.children.length : Int) - 1)
        = (s.children.length : Int) - 2 := by
      show (((0 : Nat) : Int) - 1) % ((s.children.length : Int) - 1)
        = (s.children.length : Int) - 2
      rw [h2, Int.add_mul_emod_self_left]
      exact Int.emod_eq_of_lt (by omega) (by omega)
    have ht5 : ((((0 : Nat) : Int) - 1).emod ((s.children.length : Int) - 1)).toNat
        = s.children.length - 2 := by
      rw [he0]; omega
    rw [hfoc, ht5]

/-- C2 witness: detaching window 2 (`B`) from `[1, 2, 3]` with focus on
index 1 gives `[1, 3]` with focus on index 0. -/
theorem unmanage_focused_neighbor_witness :
    (unmanage c2WitnessState 2).children = [1, 3] ∧
    (unmanage c2WitnessState 2).focused = some 0 := by
  have h := unmanage_focused_neighbor c2WitnessState 2 1 rfl (by decide) (by decide)
  refine ⟨?_, ?_⟩
  · rw [h.1]; rfl
  · have h4 := h.2.2.2.1 (by decide)
    simpa using h4

/-! Additional `focus` equations used by the cycle and swap laws. -/

theorem focus_focused_some (s : TabbedState) {i : Nat} (h : i < s.children.length) :
    (focus s (some i)).focused = some i := by
  rw [focus_some_eq s h]

theorem focus_none_self (s : TabbedState) (h : s.focused = none) :
    focus s none = s := by
  cases s with
  | mk winId winWidth winHeight children childNames focused isFocused
      running needRedraw cliClose =>
    dsimp at h
    subst h
    simp [focus_none_eq]

/-- C5: under the focus invariant, `cycle(+1)` followed by `cycle(-1)`
restores the original focus index; for any offset (negative included) the
cycle target is computed with Euclidean modulo, total and always a valid
index; and `cycle` is a no-op when there are no children or no current
focus. -/
theorem cycle_round_trip (s : TabbedState) (hinv : FocusInv s) :
    (∀ offset : Int, s.children = [] ∨ s.focused = none →
      cycle_focus_relative s offset = s) ∧
    (∀ f : Nat, s.focused = some f →
      (∀ offset : Int, ∃ t : Nat, t < s.children.length ∧
        (cycle_focus_relative s offset).focused = some t) ∧
      (cycle_focus_relative (cycle_focus_relative s 1) (-1)).focused = some f) := by
  constructor
  · intro offset h
    have hfn : s.focused = none := by
      cases hfc : s.focused with
      | none => rfl
      | some f =>
        rcases h with hch | hch
        · have := hinv f hfc
          rw [hch] at this
          simp at this
        · rw [hch] at hfc
          exact Option.noConfusion hfc
    unfold cycle_focus_relative
    rw [hfn, cycleTarget_none]
    exact focus_none_self s hfn
  · intro f hf
    have hflt : f < s.children.length := hinv f hf
    have hlen0 : 0 < s.children.length := by omega
    constructor
    · intro offset
      refine ⟨(((f : Int) + offset).emod ((s.children.length : Int))).toNat,
        cycleTarget_lt hlen0 f offset, ?_⟩
      unfold cycle_focus_relative
      rw [hf, cycleTarget_pos hlen0]
      exact focus_focused_some s (cycleTarget_lt hlen0 f offset)
    · have ht1lt := cycleTarget_lt hlen0 f 1
      have hs1 : cycle_focus_relative s 1 =
          focus s (some ((((f : Int) + 1).emod ((s.children.length : Int))).toNat)) := by
        unfold cycle_focus_relative
        rw [hf, cycleTarget_pos hlen0]
      have hs1f := focus_focused_some s ht1lt
      have hs1c := focus_children s
        (some ((((f : Int) + 1).emod ((s.children.length : Int))).toNat))
      have ht1cast : ((((f : Int) + 1).emod ((s.children.length : Int))).toNat : Int)
          = ((f : Int) + 1).emod ((s.children.length : Int)) :=
        Int.toNat_of_nonneg (Int.emod_nonneg _ (by omega))
      have harg : ((((((f : Int) + 1).emod ((s.children.length : Int))).toNat : Int)
          + (-1)).emod ((s.children.length : Int))).toNat = f := by
        rw [ht1cast]
        show ((((f : Int) + 1).emod ((s.children.length : Int)) - 1).emod
          ((s.children.length : Int))).toNat = f
        rw [emod_shift_cancel 1 (by omega) (by omega)]
        omega
      have h2 : cycle_focus_relative
          (focus s (some ((((f : Int) + 1).emod ((s.children.length : Int))).toNat))) (-1)
          = focus (focus s (some ((((f : Int) + 1).emod ((s.children.length : Int))).toNat)))
              (some f) := by
        unfold cycle_focus_relative
        rw [hs1f, hs1c, cycleTarget_pos hlen0, harg]
      rw [hs1, h2]
      apply focus_focused_some
      rw [hs1c]
      exact hflt

/-- C5 witness: cycling up then down from `[4, 5, 6]` with focus 1
restores focus 1. -/
theorem cycle_round_trip_witness :
    (cycle_focus_relative (cycle_focus_relative c5State 1) (-1)).focused = some 1 := by
  have hinv : FocusInv c5State := by
    intro i hi
    simp [c5State] at hi
    simp [c5State, ← hi]
  exact ((cycle_round_trip c5State hinv).2 1 rfl).2

/-- Closed form of `swap_focused_relative` on a focused, non-empty
state. -/
theorem swap_eq (u : TabbedState) (g : Nat) (off : Int) (hg : u.focused = some g)
    (hl : 0 < u.children.length) :
    swap_focused_relative u off =
      focus { u with children := (listSwap u.children g
            ((((g : Int) + off).emod ((u.children.length : Int))).toNat)) }
        (some ((((g : Int) + off).emod ((u.children.length : Int))).toNat)) := by
  unfold swap_focused_relative
  rw [hg, cycleTarget_pos hl]

/-- C6: with at least two children and a focus at `f`,
`swap_with_neighbor(offset)` swaps the focused entry with the entry at
`b = (f + offset) mod length` and re-focuses at `b`, the new position of
the originally focused tab (whose window now sits at index `b`); applying
`swap_with_neighbor(-offset)` from the resulting state restores the
original child list and focus — the operation is its own inverse. -/
theorem swap_involutive (s : TabbedState) (f : Nat) (offset : Int)
    (hf : s.focused = some f) (hinv : FocusInv s)
    (hlen : 2 ≤ s.children.length) :
    ∃ b : Nat, b < s.children.length ∧
      (b : Int) = ((f : Int) + offset).emod ((s.children.length : Int)) ∧
      (swap_focused_relative s offset).children = listSwap s.children f b ∧
      (swap_focused_relative s offset).focused = some b ∧
      (swap_focused_relative s offset).children.getD b 0 = s.children.getD f 0 ∧
      (swap_focused_relative (swap_focused_relative s offset) (-offset)).children
        = s.children ∧
      (swap_focused_relative (swap_focused_relative s offset) (-offset)).focused
        = some f := by
  have hflt : f < s.children.length := hinv f hf
  have hlen0 : 0 < s.children.length := by omega
  have hbnn : 0 ≤ ((f : Int) + offset).emod ((s.children.length : Int)) :=
    Int.emod_nonneg _ (by omega)
  have hsw1 := swap_eq s f offset hf hlen0
  obtain ⟨B, hB⟩ : ∃ B, (((f : Int) + offset).emod ((s.children.length : Int))).toNat = B :=
    ⟨_, rfl⟩
  rw [hB] at hsw1
  have hBint : (B : Int) = ((f : Int) + offset).emod ((s.children.length : Int)) := by
    rw [← hB]
    exact Int.toNat_of_nonneg hbnn
  have hBlt : B < s.children.length := by
    rw [← hB]
    exact cycleTarget_lt hlen0 f offset
  have hREClen : (listSwap s.children f B).length = s.children.length :=
    length_listSwap s.children f B
  have hfocB : (focus { s with children := listSwap s.children f B } (some B)).focused
      = some B := by
    apply focus_focused_some
    show B < (listSwap s.children f B).length
    rw [hREClen]
    exact hBlt
  have hchB : (focus { s with children := listSwap s.children f B } (some B)).children
      = listSwap s.children f B := by
    rw [focus_children]
  have hsw2 := swap_eq (focus { s with children := listSwap s.children f B } (some B))
    B (-offset) hfocB
    (by rw [hchB, hREClen]; omega)
  have hT2 : (((B : Int) + (-offset)).emod
      (((focus { s with children := listSwap s.children f B } (some B)).children.length : Int))).toNat
      = f := by
    rw [hchB, hREClen]
    show (((B : Int) - offset).emod ((s.children.length : Int))).toNat = f
    rw [hBint, emod_shift_cancel offset (by omega) (by omega)]
    omega
  rw [hT2] at hsw2
  refine ⟨B, hBlt, hBint, ?_, ?_, ?_, ?_, ?_⟩
  · rw [hsw1, hchB]
  · rw [hsw1, hfocB]
  · rw [hsw1, hchB]
    exact listSwap_getD_right s.children hflt hBlt
  · rw [hsw1, hsw2, focus_children]
    show listSwap (focus { s with children := listSwap s.children f B } (some B)).children B f
      = s.children
    rw [hchB]
    exact listSwap_involutive s.children hflt hBlt
  · rw [hsw1, hsw2]
    apply focus_focused_some
    show f < (listSwap (focus { s with children := listSwap s.children f B } (some B)).children B f).length
    rw [length_listSwap, hchB, hREClen]
    exact hflt

/-- C6 witness: swapping `[7, 8, 9]` (focus 0) with offset 1 gives
`[8, 7, 9]` with focus 1, and swapping back with offset -1 restores
`[7, 8, 9]` with focus 0. -/
theorem swap_involutive_witness :
    (swap_focused_relative c6State 1).children = [8, 7, 9] ∧
    (swap_focused_relative c6State 1).focused = some 1 ∧
    (swap_focused_relative (swap_focused_relative c6State 1) (-1)).children = [7, 8, 9] ∧
    (swap_focused_relative (swap_focused_relative c6State 1) (-1)).focused = some 0 := by
  have hinv : FocusInv c6State := by
    intro i hi
    simp [c6State] at hi
    simp [c6State, ← hi]
  obtain ⟨b, hb1, hb2, h3, h4, h5, h6, h7⟩ :=
    swap_involutive c6State 0 1 rfl hinv (by decide)
  have hbval : b = 1 := by
    have : ((0 : Nat) : Int) + 1 = 1 := by norm_num
    rw [this] at hb2
    have h3len : ((c6State.children.length : Nat) : Int) = 3 := by decide
    rw [h3len] at hb2
    have : (1 : Int).emod 3 = 1 := by decide
    rw [this] at hb2
    omega
  subst hbval
  refine ⟨?_, h4, h6, h7⟩
  rw [h3]
  decide

/-- C4 (evaluation at the failing input): from the initial state, an
attach of window 256 leaves `need_redraw` set; when the draw step then
fails, the iteration propagates the error out of `main` and the loop
terminates — the second event is never processed — even though `running`
is still `true` at that point.  The code therefore does not treat a draw
failure as non-fatal for a single frame. -/
theorem draw_error_terminates_loop :
    runLoop (initState 1000 200 200 false)
      [(TEvent.attach 256, DrawOutcome.err), (TEvent.attach 512, DrawOutcome.ok)]
      = Except.error () ∧
    (step (initState 1000 200 200 false) (TEvent.attach 256)).running = true :=
  ⟨rfl, rfl⟩


theorem wrap64_lt (x : Nat) : wrap64 x < 2 ^ 64 :=
  Nat.mod_lt _ (by norm_num)

theorem rotl64_lt {x : Nat} (b : Nat) (hx : x < 2 ^ 64) : rotl64 x b < 2 ^ 64 := by
  unfold rotl64
  apply Nat.or_lt_two_pow (wrap64_lt _)
  calc x >>> (64 - b) ≤ x := by
        rw [Nat.shiftRight_eq_div_pow]
        exact Nat.div_le_self _ _
    _ < 2 ^ 64 := hx

theorem xor_lt64 {x y : Nat} (hx : x < 2 ^ 64) (hy : y < 2 ^ 64) :
    x ^^^ y < 2 ^ 64 := Nat.xor_lt_two_pow hx hy

theorem sipRound_bounded {st : SipState} (h : st.Bounded) :
    (sipRound st).Bounded := by
  obtain ⟨h0, h1, h2, h3⟩ := h
  unfold sipRound
  refine ⟨?_, ?_, ?_, ?_⟩
  · exact wrap64_lt _
  · exact xor_lt64 (rotl64_lt 17 (xor_lt64 (rotl64_lt 13 h1) (wrap64_lt _))) (wrap64_lt _)
  · exact rotl64_lt 32 (wrap64_lt _)
  · exact xor_lt64 (rotl64_lt 21 (xor_lt64 (rotl64_lt 16 h3) (wrap64_lt _))) (wrap64_lt _)

theorem sipInit_bounded : sipInit.Bounded :=
  ⟨by decide, by decide, by decide, by decide⟩

theorem sipCompress_bounded (st : SipState) (b : Nat) (h : st.Bounded)
    (hb : b < 2 ^ 64) : (sipCompress st b).Bounded := by
  unfold sipCompress
  have h1 : ({ st with v3 := st.v3 ^^^ b } : SipState).Bounded :=
    ⟨h.1, h.2.1, h.2.2.1, xor_lt64 h.2.2.2 hb⟩
  have h2 := sipRound_bounded h1
  exact ⟨xor_lt64 h2.1 hb, h2.2.1, h2.2.2.1, h2.2.2.2⟩

theorem sipFinalize_lt (st : SipState) (h : st.Bounded) : sipFinalize st < 2 ^ 64 := by
  unfold sipFinalize
  have h1 : ({ st with v2 := st.v2 ^^^ 0xff } : SipState).Bounded :=
    ⟨h.1, h.2.1, xor_lt64 h.2.2.1 (by norm_num), h.2.2.2⟩
  have h2 := sipRound_bounded (sipRound_bounded (sipRound_bounded h1))
  exact xor_lt64 (xor_lt64 (xor_lt64 h2.1 h2.2.1) h2.2.2.1) h2.2.2.2

theorem defaultHasherFinish_lt (w : Nat) : defaultHasherFinish w < 2 ^ 64 := by
  unfold defaultHasherFinish
  apply sipFinalize_lt
  apply sipCompress_bounded _ _ sipInit_bounded
  apply Nat.or_lt_two_pow (by decide)
  calc w % 2 ^ 32 < 2 ^ 32 := Nat.mod_lt _ (by norm_num)
    _ < 2 ^ 64 := by norm_num

/-- C9: `color_hash` computes the 64-bit `DefaultHasher` (SipHash-1-3,
zero keys) value of the window identifier, truncates it to 32 bits
(`as u32`), extracts the three 8-bit fields at bit ranges 16–23, 8–15 and
0–7, and divides each by 256, so every channel lies in `[0, 1)`.  It is a
pure function of the identifier — the embedding is a function, and the
color factors through the hash value, so the same identifier yields the
same RGB triple on every call and every run. -/
theorem color_hash_spec (w : Nat) :
    defaultHasherFinish w < 2 ^ 64 ∧
    color_hash w =
      (((((defaultHasherFinish w % 2 ^ 32) >>> 16) &&& 0xff : Nat) : ℚ) / 256,
       ((((defaultHasherFinish w % 2 ^ 32) >>> 8) &&& 0xff : Nat) : ℚ) / 256,
       (((defaultHasherFinish w % 2 ^ 32) &&& 0xff : Nat) : ℚ) / 256) ∧
    (∀ w2 : Nat, defaultHasherFinish w2 = defaultHasherFinish w →
      color_hash w2 = color_hash w) ∧
    0 ≤ (color_hash w).1 ∧ (color_hash w).1 < 1 ∧
    0 ≤ (color_hash w).2.1 ∧ (color_hash w).2.1 < 1 ∧
    0 ≤ (color_hash w).2.2 ∧ (color_hash w).2.2 < 1 := by
  have hchannel : ∀ v : Nat,
      0 ≤ ((v &&& 0xff : Nat) : ℚ) / 256 ∧ ((v &&& 0xff : Nat) : ℚ) / 256 < 1 := by
    intro v
    constructor
    · exact div_nonneg (Nat.cast_nonneg _) (by norm_num)
    · rw [div_lt_one (by norm_num)]
      have h255 : (v &&& 0xff) ≤ 255 := Nat.and_le_right
      calc ((v &&& 0xff : Nat) : ℚ) ≤ (255 : ℚ) := by exact_mod_cast h255
        _ < 256 := by norm_num
  refine ⟨defaultHasherFinish_lt w, rfl, ?_, (hchannel _).1, (hchannel _).2,
    (hchannel _).1, (hchannel _).2, (hchannel _).1, (hchannel _).2⟩
  intro w2 h
  unfold color_hash
  rw [h]

/-- C8 counterexample: at width 0 with zero children, `tab_width` is
`0.0/0.0 = NaN`, `is_infinite()` is false, and nothing is painted — no
full-width neutral band, contradicting the claim's "for every container
width (including width 0)". -/
theorem drawbar_zero_width_no_band : drawbarOps c8State = [] := by decide

/-- C8 (amended): the renderer never fails by dividing by zero — the
`len = 0` quotient is an `f64` special value, not a fault: with zero
children and positive width it is `+inf` and the flat neutral band is
painted across the full width; at width exactly 0 it is `NaN`
(`0.0/0.0`), the `is_infinite` branch is not taken, and nothing is drawn
(a width-0 band would cover no area anyway).  For `N > 0` children, tab
`i`'s background slot has left edge `i * (W/N)` and width `W/N`. -/
theorem drawbar_spec (s : TabbedState) :
    (s.children.length = 0 → 0 < s.winWidth →
      drawbarOps s = [DrawOp.fillRect 0 0 (s.winWidth : ℚ) 20 (1/2) (1/2) (1/2)]) ∧
    (s.children.length = 0 → s.winWidth = 0 → drawbarOps s = []) ∧
    (0 < s.children.length → ∀ i, i < s.children.length →
      ∃ bright : ℚ,
        DrawOp.fillRect ((i : ℚ) * ((s.winWidth : ℚ) / (s.children.length : ℚ))) 0
          ((s.winWidth : ℚ) / (s.children.length : ℚ)) 20 bright bright bright
          ∈ drawbarOps s) := by
  refine ⟨?_, ?_, ?_⟩
  · intro h0 hW
    have hWne : s.winWidth ≠ 0 := by omega
    simp [drawbarOps, tabWidthOf, h0, hWne]
  · intro h0 hW
    simp [drawbarOps, tabWidthOf, h0, hW]
  · intro hlen i hi
    have hne : s.children.length ≠ 0 := by omega
    refine ⟨if s.focused = some i then 0 else 2/10, ?_⟩
    simp only [drawbarOps, tabWidthOf, if_neg hne]
    rw [List.mem_append]
    right
    rw [List.mem_flatMap]
    refine ⟨i, List.mem_range.mpr hi, ?_⟩
    simp [tabOps, TabWidth.val]

/-- C8 witness: with no children and width 300 exactly the neutral band
is painted; with two children over width 90, tab 1's background slot
starts at `1 * (90/2)` with width `90/2`. -/
theorem drawbar_spec_witness :
    drawbarOps c8WitnessState = [DrawOp.fillRect 0 0 300 20 (1/2) (1/2) (1/2)] ∧
    (∃ bright : ℚ,
      DrawOp.fillRect ((1 : ℚ) * ((90 : ℚ) / (2 : ℚ))) 0 ((90 : ℚ) / (2 : ℚ)) 20
        bright bright bright ∈ drawbarOps c8TabState) := by
  constructor
  · have h := (drawbar_spec c8WitnessState).1 rfl (by decide)
    simpa [c8WitnessState] using h
  · have h := (drawbar_spec c8TabState).2.2 (by decide) 1 (by decide)
    simpa [c8TabState] using h

/-! Properties of the binary-logarithm and rounding primitives behind the
`f64` model. -/

theorem natLog2F_spec : ∀ (fuel n : Nat), 1 ≤ n → n ≤ fuel →
    2 ^ natLog2F fuel n ≤ n ∧ n < 2 ^ (natLog2F fuel n + 1) := by
  intro fuel
  induction fuel with
  | zero => intro n h1 h2; omega
  | succ fuel ih =>
    intro n h1 h2
    unfold natLog2F
    by_cases hn : n ≤ 1
    · rw [if_pos hn]
      constructor
      · simpa using h1
      · have : (2:Nat) ^ (0 + 1) = 2 := by norm_num
        omega
    · rw [if_neg hn]
      obtain ⟨ha, hb⟩ := ih (n / 2) (by omega) (by omega)
      constructor
      · have h2m : (2:Nat) ^ (natLog2F fuel (n / 2) + 1)
            = 2 * 2 ^ natLog2F fuel (n / 2) := by ring
        rw [h2m]
        omega
      · have h2m : (2:Nat) ^ (natLog2F fuel (n / 2) + 1 + 1)
            = 2 * 2 ^ (natLog2F fuel (n / 2) + 1) := by ring
        rw [h2m]
        omega

theorem natLog2_spec {n : Nat} (h : 1 ≤ n) :
    2 ^ natLog2 n ≤ n ∧ n < 2 ^ (natLog2 n + 1) :=
  natLog2F_spec n n h (le_refl n)

theorem ratLog2_spec {q : ℚ} (hq : 0 < q) :
    (2:ℚ) ^ ratLog2 q ≤ q ∧ q < (2:ℚ) ^ (ratLog2 q + 1) := by
  unfold ratLog2
  by_cases h1 : 1 ≤ q
  · rw [if_pos h1]
    have hfl : (1:Int) ≤ ⌊q⌋ := by
      rw [Int.le_floor]
      exact_mod_cast h1
    have hn : 1 ≤ ⌊q⌋.toNat := by omega
    obtain ⟨ha, hb⟩ := natLog2_spec hn
    have hcast : ((⌊q⌋.toNat : Nat) : ℚ) = ((⌊q⌋ : Int) : ℚ) := by
      exact_mod_cast congrArg (fun z => ((z : Int) : ℚ)) (Int.toNat_of_nonneg (by omega))
    constructor
    · rw [zpow_natCast]
      calc ((2:ℚ)) ^ natLog2 ⌊q⌋.toNat ≤ ((⌊q⌋.toNat : Nat) : ℚ) := by exact_mod_cast ha
        _ = ((⌊q⌋ : Int) : ℚ) := hcast
        _ ≤ q := Int.floor_le q
    · have hexp : ((natLog2 ⌊q⌋.toNat : Nat) : Int) + 1
          = ((natLog2 ⌊q⌋.toNat + 1 : Nat) : Int) := by push_cast; ring
      rw [hexp, zpow_natCast]
      calc q < ((⌊q⌋ : Int) : ℚ) + 1 := Int.lt_floor_add_one q
        _ ≤ ((2:ℚ)) ^ (natLog2 ⌊q⌋.toNat + 1) := by
            rw [← hcast]
            exact_mod_cast hb
  · rw [if_neg h1]
    push_neg at h1
    have hq0 : q ≠ 0 := ne_of_gt hq
    have hinv1 : 1 < q⁻¹ := (one_lt_inv₀ hq).2 h1
    have hceil2 : (2:Int) ≤ ⌈q⁻¹⌉ := by
      have h2 := Int.lt_ceil.mpr (show ((1:Int):ℚ) < q⁻¹ by exact_mod_cast hinv1)
      omega
    have hc2 : 2 ≤ (⌈q⁻¹⌉.toNat) := by omega
    obtain ⟨ha, hb⟩ := natLog2_spec (n := ⌈q⁻¹⌉.toNat - 1) (by omega)
    have hccast : (((⌈q⁻¹⌉.toNat : Nat)) : ℚ) = ((⌈q⁻¹⌉ : Int) : ℚ) := by
      exact_mod_cast congrArg (fun z => ((z : Int) : ℚ)) (Int.toNat_of_nonneg (by omega))
    constructor
    · have hP : (0:ℚ) < ((2:ℚ)) ^ (natLog2 (⌈q⁻¹⌉.toNat - 1) + 1) := by positivity
      have hinvle : q⁻¹ ≤ ((2:ℚ)) ^ (natLog2 (⌈q⁻¹⌉.toNat - 1) + 1) := by
        calc q⁻¹ ≤ ((⌈q⁻¹⌉ : Int) : ℚ) := Int.le_ceil _
          _ = (((⌈q⁻¹⌉.toNat : Nat)) : ℚ) := hccast.symm
          _ ≤ ((2:ℚ)) ^ (natLog2 (⌈q⁻¹⌉.toNat - 1) + 1) := by
              exact_mod_cast (show (⌈q⁻¹⌉.toNat : Nat) ≤ 2 ^ (natLog2 (⌈q⁻¹⌉.toNat - 1) + 1) by omega)
      have hone : 1 ≤ q * ((2:ℚ)) ^ (natLog2 (⌈q⁻¹⌉.toNat - 1) + 1) := by
        have hmul := mul_le_mul_of_nonneg_left hinvle (le_of_lt hq)
        rw [mul_inv_cancel₀ hq0] at hmul
        exact hmul
      have hgoal : ((2:ℚ)) ^ (-(((natLog2 (⌈q⁻¹⌉.toNat - 1) + 1 : Nat)) : Int)) ≤ q := by
        rw [zpow_neg, zpow_natCast, ← one_div, div_le_iff₀ hP]
        linarith [hone]
      exact_mod_cast hgoal
    · have hA : (0:ℚ) < ((2:ℚ)) ^ (natLog2 (⌈q⁻¹⌉.toNat - 1)) := by positivity
      have hlt : ((2:ℚ)) ^ (natLog2 (⌈q⁻¹⌉.toNat - 1)) < q⁻¹ := by
        calc ((2:ℚ)) ^ (natLog2 (⌈q⁻¹⌉.toNat - 1))
            ≤ (((⌈q⁻¹⌉.toNat - 1 : Nat)) : ℚ) := by exact_mod_cast ha
          _ = (((⌈q⁻¹⌉.toNat : Nat)) : ℚ) - 1 := by
              have : 1 ≤ (⌈q⁻¹⌉.toNat : Nat) := by omega
              push_cast [this]
              ring
          _ = ((⌈q⁻¹⌉ : Int) : ℚ) - 1 := by rw [hccast]
          _ < q⁻¹ := by
              have := Int.ceil_lt_add_one q⁻¹
              linarith
      have hgoal : q < ((2:ℚ)) ^ (-(((natLog2 (⌈q⁻¹⌉.toNat - 1) + 1 : Nat)) : Int) + 1) := by
        have hexp : (-(((natLog2 (⌈q⁻¹⌉.toNat - 1) + 1 : Nat)) : Int) + 1)
            = -(((natLog2 (⌈q⁻¹⌉.toNat - 1) : Nat)) : Int) := by push_cast; ring
        rw [hexp, zpow_neg, zpow_natCast, ← one_div, lt_div_iff₀ hA]
        have hmul := mul_lt_mul_of_pos_right hlt hq
        rw [inv_mul_cancel₀ hq0] at hmul
        linarith [hmul]
      exact_mod_cast hgoal

theorem ratLog2_eq {q : ℚ} {L : Int} (hq : 0 < q)
    (h1 : (2:ℚ) ^ L ≤ q) (h2 : q < (2:ℚ) ^ (L + 1)) : ratLog2 q = L := by
  obtain ⟨ha, hb⟩ := ratLog2_spec hq
  by_contra hne
  rcases lt_or_gt_of_ne hne with hlt | hgt
  · have : (2:ℚ) ^ (ratLog2 q + 1) ≤ (2:ℚ) ^ L :=
      zpow_le_zpow_right₀ (by norm_num) (by omega)
    linarith
  · have : (2:ℚ) ^ (L + 1) ≤ (2:ℚ) ^ (ratLog2 q) :=
      zpow_le_zpow_right₀ (by norm_num) (by omega)
    linarith

theorem roundHalfEven_bounds (x : ℚ) :
    x - 1/2 ≤ ((roundHalfEven x : Int) : ℚ) ∧ ((roundHalfEven x : Int) : ℚ) ≤ x + 1/2 := by
  have h1 : ((⌊x⌋ : Int) : ℚ) ≤ x := Int.floor_le x
  have h2 : x < ((⌊x⌋ : Int) : ℚ) + 1 := Int.lt_floor_add_one x
  simp only [roundHalfEven]
  split_ifs with ha hb hc
  · constructor <;> [linarith; linarith]
  · push_cast
    constructor <;> linarith
  · constructor <;> linarith
  · push_cast
    constructor <;> linarith

theorem roundHalfEven_intCast (n : Int) : roundHalfEven ((n : Int) : ℚ) = n := by
  unfold roundHalfEven
  rw [Int.floor_intCast]
  norm_num

theorem roundHalfEven_eq_of_near {x : ℚ} {R : Int} (h1 : ((R : Int) : ℚ) - 1/2 < x)
    (h2 : x < ((R : Int) : ℚ) + 1/2) : roundHalfEven x = R := by
  simp only [roundHalfEven]
  rcases le_or_lt ((R : Int) : ℚ) x with hxR | hxR
  · have hf : ⌊x⌋ = R := by
      rw [Int.floor_eq_iff]
      exact ⟨hxR, by linarith⟩
    rw [hf]
    rw [if_pos (by linarith : x - ((R : Int) : ℚ) < 1/2)]
  · have hf : ⌊x⌋ = R - 1 := by
      rw [Int.floor_eq_iff]
      constructor
      · push_cast; linarith
      · push_cast; linarith
    rw [hf]
    have hr1 : ¬ (x - ((R - 1 : Int) : ℚ) < 1/2) := by push_cast; linarith
    have hr2 : (1/2 : ℚ) < x - ((R - 1 : Int) : ℚ) := by push_cast; linarith
    rw [if_neg hr1, if_pos hr2]
    omega

/-! Accuracy of the `f64` rounding model: every rounded value is within a
half-ulp of its argument, hence within relative error `2^-53`. -/

theorem fl64Pos_bounds {q : ℚ} (hq : 0 < q) :
    q - q / 2 ^ 53 ≤ fl64Pos q ∧ fl64Pos q ≤ q + q / 2 ^ 53 := by
  obtain ⟨hL1, hL2⟩ := ratLog2_spec hq
  obtain ⟨hr1, hr2⟩ := roundHalfEven_bounds (q * 2 ^ (52 - ratLog2 q))
  have h2 : (2:ℚ) ≠ 0 := by norm_num
  have hpos : (0:ℚ) < (2:ℚ) ^ (ratLog2 q - 52) := zpow_pos (by norm_num) _
  have hcanc : (2:ℚ) ^ (52 - ratLog2 q) * (2:ℚ) ^ (ratLog2 q - 52) = 1 := by
    rw [← zpow_add₀ h2]
    norm_num
  have herr : (1/2 : ℚ) * (2:ℚ) ^ (ratLog2 q - 52) ≤ q / 2 ^ 53 := by
    have e1 : (1/2 : ℚ) * (2:ℚ) ^ (ratLog2 q - 52) = (2:ℚ) ^ (ratLog2 q - 53) := by
      rw [show ratLog2 q - 53 = (-1) + (ratLog2 q - 52) by ring, zpow_add₀ h2]
      norm_num
    have e2 : (2:ℚ) ^ (ratLog2 q - 53) = (2:ℚ) ^ (ratLog2 q) * ((2:ℚ) ^ (53:Nat))⁻¹ := by
      rw [show ratLog2 q - 53 = ratLog2 q + (-(53:Int)) by ring, zpow_add₀ h2, zpow_neg]
      rw [show ((53:Int)) = ((53:Nat):Int) by norm_num, zpow_natCast]
    have e3 : q / 2 ^ 53 = q * ((2:ℚ) ^ (53:Nat))⁻¹ := by
      rw [div_eq_mul_inv]
    rw [e1, e2, e3]
    exact mul_le_mul_of_nonneg_right hL1 (by positivity)
  unfold fl64Pos
  constructor
  · have hstep : (q * 2 ^ (52 - ratLog2 q) - 1/2) * (2:ℚ) ^ (ratLog2 q - 52)
        ≤ ((roundHalfEven (q * 2 ^ (52 - ratLog2 q)) : Int) : ℚ) * (2:ℚ) ^ (ratLog2 q - 52) :=
      mul_le_mul_of_nonneg_right hr1 (le_of_lt hpos)
    rw [sub_mul, mul_assoc, hcanc, mul_one] at hstep
    linarith
  · have hstep : ((roundHalfEven (q * 2 ^ (52 - ratLog2 q)) : Int) : ℚ) * (2:ℚ) ^ (ratLog2 q - 52)
        ≤ (q * 2 ^ (52 - ratLog2 q) + 1/2) * (2:ℚ) ^ (ratLog2 q - 52) :=
      mul_le_mul_of_nonneg_right hr2 (le_of_lt hpos)
    rw [add_mul, mul_assoc, hcanc, mul_one] at hstep
    linarith

theorem fl64_zero : fl64 0 = 0 := by
  simp [fl64]

theorem fl64_bounds {q : ℚ} (hq : 0 ≤ q) :
    q - q / 2 ^ 53 ≤ fl64 q ∧ fl64 q ≤ q + q / 2 ^ 53 := by
  rcases eq_or_lt_of_le hq with h0 | h0
  · rw [← h0]
    simp [fl64]
  · have h := fl64Pos_bounds h0
    unfold fl64
    rw [if_neg h0.ne', if_pos h0]
    exact h

theorem fl64_pos {q : ℚ} (hq : 0 < q) : 0 < fl64 q := by
  have h := (fl64_bounds (le_of_lt hq)).1
  have h2 : q / 2 ^ 53 < q := by
    rw [div_lt_iff₀ (by norm_num : (0:ℚ) < 2 ^ 53)]
    nlinarith
  linarith

theorem fl64_nonneg {q : ℚ} (hq : 0 ≤ q) : 0 ≤ fl64 q := by
  rcases eq_or_lt_of_le hq with h0 | h0
  · rw [← h0, fl64_zero]
  · exact le_of_lt (fl64_pos h0)

theorem fl64_natCast {n : Nat} (hn : n < 2 ^ 53) : fl64 ((n : ℚ)) = (n : ℚ) := by
  rcases Nat.eq_zero_or_pos n with h0 | h0
  · subst h0
    simp [fl64]
  · have hq : (0:ℚ) < (n:ℚ) := by exact_mod_cast h0
    obtain ⟨ha, hb⟩ := natLog2_spec h0
    have hL : ratLog2 ((n:ℚ)) = (natLog2 n : Int) := by
      apply ratLog2_eq hq
      · rw [zpow_natCast]
        exact_mod_cast ha
      · have he : ((natLog2 n : Nat) : Int) + 1 = ((natLog2 n + 1 : Nat) : Int) := by
          push_cast; ring
        rw [he, zpow_natCast]
        exact_mod_cast hb
    have hLle : natLog2 n ≤ 52 := by
      by_contra hcon
      have h1 : (2:Nat) ^ 53 ≤ 2 ^ natLog2 n := Nat.pow_le_pow_right (by norm_num) (by omega)
      omega
    unfold fl64
    rw [if_neg hq.ne', if_pos hq]
    unfold fl64Pos
    rw [hL]
    have he1 : (52:Int) - (natLog2 n : Int) = ((52 - natLog2 n : Nat) : Int) := by omega
    rw [he1, zpow_natCast]
    have he2 : ((n:ℚ)) * 2 ^ (52 - natLog2 n)
        = (((n * 2 ^ (52 - natLog2 n) : Nat) : Int) : ℚ) := by
      push_cast; ring
    rw [he2, roundHalfEven_intCast]
    have he3 : ((natLog2 n : Int)) - 52 = -(((52 - natLog2 n : Nat)) : Int) := by omega
    rw [he3, zpow_neg, zpow_natCast]
    push_cast
    rw [mul_assoc, mul_inv_cancel₀ (by positivity), mul_one]

theorem fl64_eq_nat {q : ℚ} {R : Int} (s : Nat) (hq : 0 < q)
    (hL1 : (2:ℚ) ^ ((52:Int) - s) ≤ q) (hL2 : q < (2:ℚ) ^ ((52:Int) - s + 1))
    (hR : roundHalfEven (q * 2 ^ s) = R) :
    fl64 q = ((R : Int) : ℚ) / 2 ^ s := by
  have hL : ratLog2 q = (52:Int) - s := ratLog2_eq hq hL1 hL2
  unfold fl64
  rw [if_neg hq.ne', if_pos hq]
  unfold fl64Pos
  rw [hL]
  have he1 : (52:Int) - ((52:Int) - s) = ((s:Nat) : Int) := by omega
  rw [he1, zpow_natCast, hR]
  have he2 : ((52:Int) - s) - 52 = -((s:Nat) : Int) := by omega
  rw [he2, zpow_neg, zpow_natCast]
  exact (div_eq_mul_inv _ _).symm

/-! Evaluation and bounds for `buttonIndex`. -/

theorem buttonIndex_eval {W N : Nat} {x : Int} {Wq Nq xq a t r : ℚ} {k : Nat}
    (hWc : ((W:Nat):ℚ) = Wq) (hNc : ((N:Nat):ℚ) = Nq) (hxc : ((x:Int):ℚ) = xq)
    (hW : ¬ W = 0)
    (ha : fl64 Nq = a) (ht : fl64 (Wq / a) = t) (hr : fl64 (xq / t) = r)
    (hfl : ⌊r⌋ = ((k:Nat):Int)) (hk : k ≤ 2 ^ 64 - 1) :
    buttonIndex W N x = k := by
  unfold buttonIndex
  rw [if_neg hW, hNc, ha, hWc, ht, hxc, hr, hfl]
  have h1 : (((k:Nat):Int)).toNat = k := by omega
  rw [h1]
  exact min_eq_left hk

theorem buttonIndexCore_lt (Wq Nq xq a t r : ℚ)
    (hW16 : Wq ≤ 65535)
    (_hNq : 0 < Nq) (_hxq : 0 ≤ xq) (hxW : xq ≤ Wq - 1)
    (hapos : 0 < a) (ha2 : a ≤ Nq + Nq / 2 ^ 53)
    (htpos : 0 < t) (ht1 : Wq / a - (Wq / a) / 2 ^ 53 ≤ t)
    (hrle : r ≤ xq / t + (xq / t) / 2 ^ 53) :
    r < Nq := by
  by_contra hcon
  push_neg at hcon
  have hane : a ≠ 0 := ne_of_gt hapos
  have htne : t ≠ 0 := ne_of_gt htpos
  have h1a : (Wq / a - (Wq / a) / 2 ^ 53) * a ≤ t * a :=
    mul_le_mul_of_nonneg_right ht1 (le_of_lt hapos)
  have h1b : (Wq / a - (Wq / a) / 2 ^ 53) * a = Wq - Wq / 2 ^ 53 := by
    field_simp
    ring
  rw [h1b] at h1a
  have h2a : t * a ≤ t * (Nq + Nq / 2 ^ 53) :=
    mul_le_mul_of_nonneg_left ha2 (le_of_lt htpos)
  have h2b : t * (Nq + Nq / 2 ^ 53) = t * Nq + (t * Nq) / 2 ^ 53 := by ring
  have key1 : Wq - Wq / 2 ^ 53 ≤ t * Nq + (t * Nq) / 2 ^ 53 := by linarith
  have h3a : r * t ≤ (xq / t + (xq / t) / 2 ^ 53) * t :=
    mul_le_mul_of_nonneg_right hrle (le_of_lt htpos)
  have h3b : (xq / t + (xq / t) / 2 ^ 53) * t = xq + xq / 2 ^ 53 := by
    field_simp
    ring
  rw [h3b] at h3a
  have h4 : Nq * t ≤ r * t := mul_le_mul_of_nonneg_right hcon (le_of_lt htpos)
  have h5 : Nq * t = t * Nq := by ring
  have key2 : t * Nq ≤ (Wq - 1) + (Wq - 1) / 2 ^ 53 := by linarith
  linarith

theorem buttonIndexCore_last (Wq Nq a t r : ℚ)
    (hW16 : Wq ≤ 65535) (hN1 : 1 ≤ Nq) (hNW : Nq + 1 ≤ Wq)
    (hapos : 0 < a) (ha1 : Nq - Nq / 2 ^ 53 ≤ a)
    (htpos : 0 < t) (ht2 : t ≤ Wq / a + (Wq / a) / 2 ^ 53)
    (hrge : (Wq - 1) / t - ((Wq - 1) / t) / 2 ^ 53 ≤ r) :
    Nq - 1 ≤ r := by
  by_contra hcon
  push_neg at hcon
  have hane : a ≠ 0 := ne_of_gt hapos
  have htne : t ≠ 0 := ne_of_gt htpos
  have k1a : ((Wq - 1) / t - ((Wq - 1) / t) / 2 ^ 53) * t ≤ r * t :=
    mul_le_mul_of_nonneg_right hrge (le_of_lt htpos)
  have k1b : ((Wq - 1) / t - ((Wq - 1) / t) / 2 ^ 53) * t
      = (Wq - 1) - (Wq - 1) / 2 ^ 53 := by
    field_simp
    ring
  rw [k1b] at k1a
  have k2 : r * t < (Nq - 1) * t := mul_lt_mul_of_pos_right hcon htpos
  have hN0 : (0:ℚ) ≤ Nq - 1 := by linarith
  have k3 : (Nq - 1) * t ≤ (Nq - 1) * (Wq / a + (Wq / a) / 2 ^ 53) :=
    mul_le_mul_of_nonneg_left ht2 hN0
  have k4 : ((Wq - 1) - (Wq - 1) / 2 ^ 53) * a
      < (Nq - 1) * (Wq / a + (Wq / a) / 2 ^ 53) * a := by
    have hlt : (Wq - 1) - (Wq - 1) / 2 ^ 53 < (Nq - 1) * (Wq / a + (Wq / a) / 2 ^ 53) := by
      linarith
    exact mul_lt_mul_of_pos_right hlt hapos
  have k4b : (Nq - 1) * (Wq / a + (Wq / a) / 2 ^ 53) * a
      = (Nq - 1) * (Wq + Wq / 2 ^ 53) := by
    field_simp
    ring
  rw [k4b] at k4
  have hWm : (0:ℚ) ≤ (Wq - 1) - (Wq - 1) / 2 ^ 53 := by linarith
  have k5 : ((Wq - 1) - (Wq - 1) / 2 ^ 53) * (Nq - Nq / 2 ^ 53)
      ≤ ((Wq - 1) - (Wq - 1) / 2 ^ 53) * a :=
    mul_le_mul_of_nonneg_left ha1 hWm
  have k6 : ((Wq - 1) - (Wq - 1) / 2 ^ 53) * (Nq - Nq / 2 ^ 53)
      < (Nq - 1) * (Wq + Wq / 2 ^ 53) := lt_of_le_of_lt k5 k4
  have hP1 : Nq * Wq ≤ 65535 * 65535 := by nlinarith
  have hP0 : (0:ℚ) ≤ Nq * Wq := by nlinarith
  nlinarith [k6, hP1, hP0, hN1, hNW, hW16]

theorem buttonIndex_zero (W N : Nat) : buttonIndex W N 0 = 0 := by
  unfold buttonIndex
  split
  · norm_num
  · rw [show (((0:Int)):ℚ) = (0:ℚ) by norm_num, zero_div, fl64_zero]
    simp

theorem buttonIndex_lt {W N : Nat} {x : Int} (hW16 : W < 2 ^ 16) (hN : 0 < N)
    (hx0 : 0 ≤ x) (hxW : x < (W : Int)) :
    buttonIndex W N x < N := by
  have hW : ¬ W = 0 := by omega
  unfold buttonIndex
  rw [if_neg hW]
  have hNq : (0:ℚ) < ((N:Nat):ℚ) := by exact_mod_cast hN
  have hWpos : (0:ℚ) < ((W:Nat):ℚ) := by exact_mod_cast Nat.pos_of_ne_zero hW
  have hapos : (0:ℚ) < fl64 (((N:Nat):ℚ)) := fl64_pos hNq
  have hupos : (0:ℚ) < ((W:Nat):ℚ) / fl64 (((N:Nat):ℚ)) := div_pos hWpos hapos
  have htpos : (0:ℚ) < fl64 (((W:Nat):ℚ) / fl64 (((N:Nat):ℚ))) := fl64_pos hupos
  have hxq : (0:ℚ) ≤ (((x:Int)):ℚ) := by exact_mod_cast hx0
  have hvnn : (0:ℚ) ≤ (((x:Int)):ℚ) / fl64 (((W:Nat):ℚ) / fl64 (((N:Nat):ℚ))) :=
    div_nonneg hxq (le_of_lt htpos)
  have hW16q : ((W:Nat):ℚ) ≤ 65535 := by exact_mod_cast (by omega : W ≤ 65535)
  have hxWq : (((x:Int)):ℚ) ≤ ((W:Nat):ℚ) - 1 := by
    have hx1 : x ≤ (W:Int) - 1 := by omega
    have hx2 : (((x:Int)):ℚ) ≤ (((W:Int) - 1 : Int):ℚ) := by exact_mod_cast hx1
    push_cast at hx2
    linarith
  have hrlt : fl64 ((((x:Int)):ℚ) / fl64 (((W:Nat):ℚ) / fl64 (((N:Nat):ℚ)))) < ((N:Nat):ℚ) :=
    buttonIndexCore_lt ((W:Nat):ℚ) ((N:Nat):ℚ) (((x:Int)):ℚ) _ _ _
      hW16q hNq hxq hxWq hapos (fl64_bounds (le_of_lt hNq)).2
      htpos (fl64_bounds (le_of_lt hupos)).1 (fl64_bounds hvnn).2
  have hfl : ⌊fl64 ((((x:Int)):ℚ) / fl64 (((W:Nat):ℚ) / fl64 (((N:Nat):ℚ))))⌋ < ((N:Nat):Int) := by
    rw [Int.floor_lt]
    exact_mod_cast hrlt
  have htn : (⌊fl64 ((((x:Int)):ℚ) / fl64 (((W:Nat):ℚ) / fl64 (((N:Nat):ℚ))))⌋).toNat < N := by
    omega
  exact lt_of_le_of_lt (min_le_left _ _) htn

theorem buttonIndex_last {W N : Nat} (hW16 : W < 2 ^ 16) (hN : 0 < N) (hNW : N ≤ W) :
    buttonIndex W N ((W : Int) - 1) = N - 1 := by
  rcases eq_or_lt_of_le hNW with heq | hlt
  · subst heq
    unfold buttonIndex
    rw [if_neg (by omega : ¬ N = 0)]
    have hNlt : N < 2 ^ 53 := by omega
    have hNq : (0:ℚ) < ((N:Nat):ℚ) := by exact_mod_cast hN
    have hone : fl64 ((1:ℚ)) = 1 := by
      rw [show (1:ℚ) = (((1:Nat)):ℚ) by norm_num]
      exact fl64_natCast (by norm_num)
    rw [fl64_natCast hNlt, div_self hNq.ne', hone, div_one]
    have h1 : (1:Nat) ≤ N := hN
    have hc : ((((N:Int) - 1):Int):ℚ) = (((N - 1 : Nat)):ℚ) := by
      rw [Nat.cast_sub h1]
      push_cast
      ring
    rw [hc, fl64_natCast (by omega : N - 1 < 2 ^ 53), Int.floor_natCast]
    have ht : ((((N - 1 : Nat)):Int)).toNat = N - 1 := by omega
    rw [ht]
    exact min_eq_left (by omega)
  · have hW : ¬ W = 0 := by omega
    unfold buttonIndex
    rw [if_neg hW]
    have hxc : ((((W:Int) - 1):Int):ℚ) = ((W:Nat):ℚ) - 1 := by push_cast; ring
    rw [hxc]
    have hNq : (0:ℚ) < ((N:Nat):ℚ) := by exact_mod_cast hN
    have hWpos : (0:ℚ) < ((W:Nat):ℚ) := by exact_mod_cast Nat.pos_of_ne_zero hW
    have hapos : (0:ℚ) < fl64 (((N:Nat):ℚ)) := fl64_pos hNq
    have hupos : (0:ℚ) < ((W:Nat):ℚ) / fl64 (((N:Nat):ℚ)) := div_pos hWpos hapos
    have htpos : (0:ℚ) < fl64 (((W:Nat):ℚ) / fl64 (((N:Nat):ℚ))) := fl64_pos hupos
    have hN1q : (1:ℚ) ≤ ((N:Nat):ℚ) := by exact_mod_cast hN
    have hNWq : ((N:Nat):ℚ) + 1 ≤ ((W:Nat):ℚ) := by exact_mod_cast (by omega : N + 1 ≤ W)
    have hW16q : ((W:Nat):ℚ) ≤ 65535 := by exact_mod_cast (by omega : W ≤ 65535)
    have hxq : (0:ℚ) ≤ ((W:Nat):ℚ) - 1 := by linarith
    have hvnn : (0:ℚ) ≤ (((W:Nat):ℚ) - 1) / fl64 (((W:Nat):ℚ) / fl64 (((N:Nat):ℚ))) :=
      div_nonneg hxq (le_of_lt htpos)
    have hrlt : fl64 ((((W:Nat):ℚ) - 1) / fl64 (((W:Nat):ℚ) / fl64 (((N:Nat):ℚ)))) < ((N:Nat):ℚ) :=
      buttonIndexCore_lt ((W:Nat):ℚ) ((N:Nat):ℚ) (((W:Nat):ℚ) - 1) _ _ _
        hW16q hNq hxq (le_refl _) hapos (fl64_bounds (le_of_lt hNq)).2
        htpos (fl64_bounds (le_of_lt hupos)).1 (fl64_bounds hvnn).2
    have hrge : ((N:Nat):ℚ) - 1
        ≤ fl64 ((((W:Nat):ℚ) - 1) / fl64 (((W:Nat):ℚ) / fl64 (((N:Nat):ℚ)))) :=
      buttonIndexCore_last ((W:Nat):ℚ) ((N:Nat):ℚ) _ _ _
        hW16q hN1q hNWq hapos (fl64_bounds (le_of_lt hNq)).1
        htpos (fl64_bounds (le_of_lt hupos)).2 (fl64_bounds hvnn).1
    have hfl : ⌊fl64 ((((W:Nat):ℚ) - 1) / fl64 (((W:Nat):ℚ) / fl64 (((N:Nat):ℚ))))⌋
        = ((N:Nat):Int) - 1 := by
      rw [Int.floor_eq_iff]
      constructor
      · push_cast
        linarith
      · push_cast
        linarith
    rw [hfl]
    have ht : (((N:Nat):Int) - 1).toNat = N - 1 := by omega
    rw [ht]
    exact min_eq_left (by omega)

/-! Concrete `buttonIndex` evaluations for the C7 counterexample: each
`fl64` application is settled by exhibiting the binade and the rounded
53-bit significand. -/

theorem buttonIndex_100_2_60 : buttonIndex 100 2 60 = 1 := by
  have ha : fl64 ((2:ℚ)) = 2 := by
    have h := fl64_natCast (n := 2) (by norm_num)
    norm_num at h
    exact h
  have ht : fl64 ((100:ℚ) / 2) = 50 := by
    rw [show (100:ℚ)/2 = (((50:Nat)):ℚ) by norm_num, fl64_natCast (by norm_num)]
    norm_num
  have hr : fl64 ((60:ℚ) / 50) = ((5404319552844595:Int):ℚ) / 2 ^ 52 :=
    fl64_eq_nat 52 (by norm_num) (by norm_num) (by norm_num)
      (roundHalfEven_eq_of_near (by norm_num) (by norm_num))
  exact buttonIndex_eval (by norm_num) (by norm_num) (by norm_num) (by norm_num)
    ha ht hr (by rw [Int.floor_eq_iff]; constructor <;> norm_num) (by norm_num)

theorem buttonIndex_18_14_9 : buttonIndex 18 14 9 = 6 := by
  have ha : fl64 ((14:ℚ)) = 14 := by
    have h := fl64_natCast (n := 14) (by norm_num)
    norm_num at h
    exact h
  have ht : fl64 ((18:ℚ) / 14) = ((5790342378047781:Int):ℚ) / 2 ^ 52 :=
    fl64_eq_nat 52 (by norm_num) (by norm_num) (by norm_num)
      (roundHalfEven_eq_of_near (by norm_num) (by norm_num))
  have hr : fl64 ((9:ℚ) / (((5790342378047781:Int):ℚ) / 2 ^ 52))
      = ((7881299347898367:Int):ℚ) / 2 ^ 50 :=
    fl64_eq_nat 50 (by norm_num) (by norm_num) (by norm_num)
      (roundHalfEven_eq_of_near (by norm_num) (by norm_num))
  exact buttonIndex_eval (by norm_num) (by norm_num) (by norm_num) (by norm_num)
    ha ht hr (by rw [Int.floor_eq_iff]; constructor <;> norm_num) (by norm_num)

theorem buttonIndex_5_10_4 : buttonIndex 5 10 4 = 8 := by
  have ha : fl64 ((10:ℚ)) = 10 := by
    have h := fl64_natCast (n := 10) (by norm_num)
    norm_num at h
    exact h
  have ht : fl64 ((5:ℚ) / 10) = 1/2 := by
    have h : fl64 ((5:ℚ) / 10) = ((4503599627370496:Int):ℚ) / 2 ^ 53 :=
      fl64_eq_nat 53 (by norm_num) (by norm_num) (by norm_num)
        (roundHalfEven_eq_of_near (by norm_num) (by norm_num))
    rw [h]
    norm_num
  have hr : fl64 ((4:ℚ) / (1/2)) = 8 := by
    rw [show (4:ℚ)/(1/2) = (((8:Nat)):ℚ) by norm_num, fl64_natCast (by norm_num)]
    norm_num
  exact buttonIndex_eval (by norm_num) (by norm_num) (by norm_num) (by norm_num)
    ha ht hr (by rw [Int.floor_eq_iff]; constructor <;> norm_num) (by norm_num)

/-- C7 counterexample: three reachable divergences from the claim.  (i) The
`y = 20` boundary row is not ignored: in `c7State` (two tabs, width 100) a
press at `(60, 20)` moves the focus from tab 0 to tab 1 and changes the
state.  (ii) The index is not the exact `floor(x / (W/N)) = x*N/W`: in
`c7bState` (14 tabs, width 18) a press at `x = 9` focuses tab 6, while the
exact quotient is `9*14/18 = 7` — `f64` double rounding loses the last
step.  (iii) A press just under the right edge does not reach tab `N-1`
when there are more tabs than width units: in `c7cState` (10 tabs, width
5) a press at `x = W-1 = 4` focuses tab 8, not `N-1 = 9`. -/
theorem button_press_double_rounding :
    (handle_button_press c7State 60 20).focused = some 1 ∧
    handle_button_press c7State 60 20 ≠ c7State ∧
    (handle_button_press c7bState 9 0).focused = some 6 ∧
    9 * 14 / 18 = 7 ∧
    (handle_button_press c7cState 4 0).focused = some 8 ∧
    c7cState.children.length - 1 = 9 := by
  have hstep1 : handle_button_press c7State 60 20
      = focus c7State (some (buttonIndex 100 2 60)) := rfl
  have hfoc1 : (handle_button_press c7State 60 20).focused = some 1 := by
    rw [hstep1, buttonIndex_100_2_60]
    decide
  have hstep2 : handle_button_press c7bState 9 0
      = focus c7bState (some (buttonIndex 18 14 9)) := rfl
  have hstep3 : handle_button_press c7cState 4 0
      = focus c7cState (some (buttonIndex 5 10 4)) := rfl
  refine ⟨hfoc1, ?_, ?_, by decide, ?_, by decide⟩
  · intro h
    have h2 : (handle_button_press c7State 60 20).focused = c7State.focused :=
      congrArg TabbedState.focused h
    rw [hfoc1] at h2
    exact absurd h2 (by decide)
  · rw [hstep2, buttonIndex_18_14_9]
    decide
  · rw [hstep3, buttonIndex_5_10_4]
    decide

/-- C7 (amended): a button press is ignored exactly when there are no
children or `event_y > 20` — the boundary row `y = 20` still switches
tabs.  Otherwise the handler focuses `buttonIndex`, the `f64`-computed
`floor(x / (W/N))` in which the cast of `N` and both divisions each round
to nearest-even binary64 (double rounding, so the result can be one less
than the exact quotient).  For `0 ≤ x < W` (width below `2^16`) the index
is a valid tab index and the press focuses it; `x = 0` always selects tab
0; and `x = W - 1` selects tab `N-1` provided `N ≤ W`. -/
theorem handle_button_press_spec (s : TabbedState) (x y : Int) :
    (s.children = [] → handle_button_press s x y = s) ∧
    (20 < y → handle_button_press s x y = s) ∧
    (s.children ≠ [] → y ≤ 20 →
      handle_button_press s x y
        = focus s (some (buttonIndex s.winWidth s.children.length x))) ∧
    (s.children ≠ [] → y ≤ 20 → 0 ≤ x → x < (s.winWidth : Int) →
      s.winWidth < 2 ^ 16 →
      buttonIndex s.winWidth s.children.length x < s.children.length ∧
      (handle_button_press s x y).focused
        = some (buttonIndex s.winWidth s.children.length x)) ∧
    (s.children ≠ [] → y ≤ 20 → x = 0 →
      (handle_button_press s x y).focused = some 0) ∧
    (s.children ≠ [] → y ≤ 20 → x = (s.winWidth : Int) - 1 →
      s.children.length ≤ s.winWidth → s.winWidth < 2 ^ 16 →
      (handle_button_press s x y).focused = some (s.children.length - 1)) := by
  have hmain : ∀ _ : s.children ≠ [], y ≤ 20 →
      handle_button_press s x y
        = focus s (some (buttonIndex s.winWidth s.children.length x)) := by
    intro h1 h2
    have he : s.children.isEmpty = false := by
      cases hc : s.children with
      | nil => exact absurd hc h1
      | cons a l => rfl
    have hd : decide (20 < y) = false := decide_eq_false (by omega)
    simp [handle_button_press, he, hd]
  refine ⟨?_, ?_, hmain, ?_, ?_, ?_⟩
  · intro h
    have he : s.children.isEmpty = true := by rw [h]; rfl
    simp [handle_button_press, he]
  · intro h
    have hd : decide (20 < y) = true := decide_eq_true h
    simp [handle_button_press, hd]
  · intro h1 h2 hx0 hxW hW16
    have hN : 0 < s.children.length := List.length_pos.mpr h1
    have hlt : buttonIndex s.winWidth s.children.length x < s.children.length :=
      buttonIndex_lt hW16 hN hx0 hxW
    refine ⟨hlt, ?_⟩
    rw [hmain h1 h2]
    exact focus_focused_some s hlt
  · intro h1 h2 hx
    subst hx
    rw [hmain h1 h2, buttonIndex_zero]
    exact focus_focused_some s (List.length_pos.mpr h1)
  · intro h1 h2 hx hNW hW16
    subst hx
    have hN : 0 < s.children.length := List.length_pos.mpr h1
    rw [hmain h1 h2, buttonIndex_last hW16 hN hNW]
    exact focus_focused_some s (by omega)

/-- C7 witness: in `c7WitnessState` (four tabs, width 100, focus on tab
1), a press at `y = 25` is ignored, a press at `x = 0` focuses tab 0, and
a press at `x = 99 = W - 1` focuses tab 3 = N - 1. -/
theorem handle_button_press_spec_witness :
    handle_button_press c7WitnessState 60 25 = c7WitnessState ∧
    (handle_button_press c7WitnessState 0 20).focused = some 0 ∧
    (handle_button_press c7WitnessState 99 20).focused = some 3 := by
  refine ⟨?_, ?_, ?_⟩
  · exact (handle_button_press_spec c7WitnessState 60 25).2.1 (by norm_num)
  · exact (handle_button_press_spec c7WitnessState 0 20).2.2.2.2.1
      (by decide) (by norm_num) rfl
  · have h := (handle_button_press_spec c7WitnessState 99 20).2.2.2.2.2
      (by decide) (by norm_num) (by decide) (by decide) (by decide)
    have h3 : c7WitnessState.children.length - 1 = 3 := by decide
    rw [h3] at h
    exact h

end TabbedRs
